import Mathlib

/-!
Verification of the question extraction and analysis pipeline of the
upsc-question-analyzer repository.

The Python sources are shallowly embedded over `List Char`: each relevant
Python string operation (`str.strip`, `str.split`, `str.replace`,
`str.startswith`, substring membership, and the specific `re` patterns used
by the code) is given an executable Lean counterpart, and each function of
`question_parser.py`, `ollama_analyzer.py` and `excel_generator.py` that the
claims mention is translated into a Lean definition over those counterparts.
-/

/-- Strings of the embedded program are lists of characters. -/
abbrev Str := List Char

/-- The characters Python's `str.strip` and the regex class `\s` treat as
whitespace (ASCII fragment). -/
def isPySpace (c : Char) : Bool :=
  c = ' ' || c = '\t' || c = '\n' || c = '\r' || c = '\x0b' || c = '\x0c'

/-- Embedding of Python `str.startswith` (also used for literal matching
inside the regex embeddings). -/
def pyStartsWith : Str → Str → Bool
  | [], _ => true
  | _ :: _, [] => false
  | p :: ps, c :: cs => p = c && pyStartsWith ps cs

/-- Embedding of Python's substring test `pat in s`. -/
def containsSeq (pat : Str) : Str → Bool
  | [] => pyStartsWith pat []
  | c :: cs => pyStartsWith pat (c :: cs) || containsSeq pat cs

/-- Embedding of Python `str.strip` on the left. -/
def lstrip (s : Str) : Str := s.dropWhile isPySpace

/-- Embedding of Python `str.strip`. -/
def pyStrip (s : Str) : Str := ((lstrip s).reverse.dropWhile isPySpace).reverse

/-- Fuelled worker for Python `str.split(sep)` with a non-empty separator.
The fuel is an upper bound on the scanned length; `pySplit` instantiates it
with the string's length, which always suffices. -/
def pySplitFuel (sep : Str) : Nat → Str → List Str
  | 0, s => [s]
  | _ + 1, [] => [[]]
  | fuel + 1, c :: cs =>
    if sep ≠ [] ∧ pyStartsWith sep (c :: cs) then
      [] :: pySplitFuel sep fuel (List.drop sep.length (c :: cs))
    else
      match pySplitFuel sep fuel cs with
      | [] => [[c]]
      | r :: rs => (c :: r) :: rs

/-- Embedding of Python `str.split(sep)` for a non-empty separator. -/
def pySplit (sep s : Str) : List Str := pySplitFuel sep s.length s

/-- Fuelled worker for Python `str.replace(pat, rep)` with non-empty `pat`. -/
def pyReplaceFuel (pat rep : Str) : Nat → Str → Str
  | 0, s => s
  | _ + 1, [] => []
  | fuel + 1, c :: cs =>
    if pat ≠ [] ∧ pyStartsWith pat (c :: cs) then
      rep ++ pyReplaceFuel pat rep fuel (List.drop pat.length (c :: cs))
    else
      c :: pyReplaceFuel pat rep fuel cs

/-- Embedding of Python `str.replace(pat, rep)` for a non-empty pattern. -/
def pyReplace (pat rep s : Str) : Str := pyReplaceFuel pat rep s.length s

/-- Embedding of `re.search`: try the matcher `f` at every position from the
left, returning the first success (`f` receives the suffix starting at the
current position). -/
def searchWith (f : Str → Option α) : Str → Option α
  | [] => f []
  | c :: cs =>
    match f (c :: cs) with
    | some v => some v
    | none => searchWith f cs

/-- Join a list of strings with a single-character separator (used to build
rendered documents; inverse of splitting on that character). -/
def joinWith (c : Char) : List Str → Str
  | [] => []
  | [l] => l
  | l :: l' :: ls => l ++ c :: joinWith c (l' :: ls)

/-- Join a list of strings with a multi-character separator. -/
def joinWithSeq (sep : Str) : List Str → Str
  | [] => []
  | [l] => l
  | l :: l' :: ls => l ++ sep ++ joinWithSeq sep (l' :: ls)

/-- Numeric value of a digit string, as computed by Python `int`. -/
def digitsVal (ds : Str) : Nat :=
  ds.foldl (fun n c => 10 * n + (c.toNat - '0'.toNat)) 0

/-! ## Embedding of `src/question_parser.py` -/

/-- `Question` dataclass of `question_parser.py`. -/
structure Question where
  subject : Str
  topic : Str
  subtopic : Str
  question_number : Nat
  question_text : Str
  options : List Str
  correct_answer : Str
  explanation : Str
deriving DecidableEq

/-- The header dictionary built by `QuestionParser._extract_header_info`. -/
structure HeaderInfo where
  subject : Str
  topic : Str
  subtopic : Str
deriving DecidableEq

/-- `QuestionParser.question_separator`: sixty `=` characters. -/
def questionSeparator : Str := List.replicate 60 '='

/-- The loop body of `QuestionParser._extract_header_info`: scan lines,
strip each, match the three literal prefixes, and stop (`break`) at the
first `Subtopic:` line. -/
def extractHeaderLines : List Str → HeaderInfo → HeaderInfo
  | [], h => h
  | line :: rest, h =>
    let l := pyStrip line
    if pyStartsWith "Subject:".data l then
      extractHeaderLines rest { h with subject := pyStrip (pyReplace "Subject:".data [] l) }
    else if pyStartsWith "Topic:".data l then
      extractHeaderLines rest { h with topic := pyStrip (pyReplace "Topic:".data [] l) }
    else if pyStartsWith "Subtopic:".data l then
      { h with subtopic := pyStrip (pyReplace "Subtopic:".data [] l) }
    else
      extractHeaderLines rest h

/-- `QuestionParser._extract_header_info`: check the first 10 lines for the
header fields, defaulting each to the empty string. -/
def extractHeaderInfo (content : Str) : HeaderInfo :=
  extractHeaderLines ((pySplit ['\n'] content).take 10) ⟨[], [], []⟩

/-- `QuestionParser._split_into_question_blocks`: split on the separator,
strip each block, and keep the non-empty blocks containing `**QUESTION`. -/
def splitIntoQuestionBlocks (content : Str) : List Str :=
  ((pySplit questionSeparator content).map pyStrip).filter
    (fun b => !b.isEmpty && containsSeq "**QUESTION".data b)

/-- Matcher for the regex `\*\*QUESTION\s+(\d+)\*\*` at one position: the
literal, at least one whitespace, a maximal digit run (the group), then
`**`.  The value is `int` of the digits. -/
def markerTry (s : Str) : Option Nat :=
  if pyStartsWith "**QUESTION".data s then
    let s1 := s.drop 10
    let ws := s1.takeWhile isPySpace
    if ws.isEmpty then none
    else
      let s2 := s1.dropWhile isPySpace
      let ds := s2.takeWhile Char.isDigit
      if ds.isEmpty then none
      else if pyStartsWith "**".data (s2.drop ds.length) then some (digitsVal ds)
      else none
  else none

/-- `re.search(self.question_pattern, block)` of `_parse_question_block`. -/
def searchMarker (block : Str) : Option Nat := searchWith markerTry block

/-- The test `re.match(r'^\s*[A-D]\.', line)` of `_extract_question_text`. -/
def optStart (l : Str) : Bool :=
  match l.dropWhile isPySpace with
  | c :: d :: _ => (c = 'A' || c = 'B' || c = 'C' || c = 'D') && d = '.'
  | _ => false

/-- The line loop of `QuestionParser._extract_question_text`: accumulate the
`**Q:**` line (with the marker removed) and following non-empty lines, and
break at the first option line. -/
def extractQLoop : List Str → Bool → List Str → List Str
  | [], _, acc => acc
  | line :: rest, inq, acc =>
    let l := pyStrip line
    if pyStartsWith "**Q:**".data l then
      extractQLoop rest true (acc ++ [pyStrip (pyReplace "**Q:**".data [] l)])
    else if inq && optStart l then acc
    else if inq && !l.isEmpty then extractQLoop rest inq (acc ++ [l])
    else extractQLoop rest inq acc

/-- `QuestionParser._extract_question_text`. -/
def extractQuestionText (block : Str) : Str :=
  pyStrip (joinWith ' ' (extractQLoop (pySplit ['\n'] block) false []))

/-- `re.match(r'^([A-D])\.\s*(.*)', line)` of `_extract_options`, returning
the formatted option `f"{letter}. {text}"` on success. -/
def optionMatch (line : Str) : Option Str :=
  match pyStrip line with
  | c :: d :: rest =>
    if (c = 'A' || c = 'B' || c = 'C' || c = 'D') && d = '.' then
      some (c :: '.' :: ' ' :: rest.dropWhile isPySpace)
    else none
  | _ => none

/-- `QuestionParser._extract_options`: one option per matching line. -/
def extractOptions (block : Str) : List Str :=
  (pySplit ['\n'] block).filterMap optionMatch

/-- The tail `\s*([^\n]+)` of the answer and fallback patterns, with the
backtracking `re` performs when the greedy `\s*` would leave nothing for
`[^\n]+`: if stripping the whitespace leaves text, the group is that text up
to the next newline; otherwise the group is the last non-newline whitespace
character, if any. -/
def wsStarNonNl (t : Str) : Option Str :=
  match t.dropWhile isPySpace with
  | c :: r => some ((c :: r).takeWhile (fun x => x ≠ '\n'))
  | [] =>
    match t.reverse.dropWhile (fun x => x = '\n') with
    | [] => none
    | c :: _ => some [c]

/-- Matcher for `\*\*Correct Answer:\*\*\s*([A-D])\.\s*([^\n]+)` at one
position, returning `f"{letter}. {text}"`. -/
def answerTry (s : Str) : Option Str :=
  if pyStartsWith "**Correct Answer:**".data s then
    match (s.drop 19).dropWhile isPySpace with
    | c :: d :: rest =>
      if (c = 'A' || c = 'B' || c = 'C' || c = 'D') && d = '.' then
        match wsStarNonNl rest with
        | some g => some (c :: '.' :: ' ' :: g)
        | none => none
      else none
    | _ => none
  else none

/-- The lazy group of `\*\*Explanation:\*\*(.*?)(?=\n\n|\Z)` with
`re.DOTALL`: the shortest run of characters ending at a blank-line pair or
at the end of the text. -/
def lazyUntilBlank : Str → Str
  | [] => []
  | c :: cs =>
    if c = '\n' ∧ cs.head? = some '\n' then []
    else c :: lazyUntilBlank cs

/-- Matcher for the explanation pattern at one position. -/
def explTry (s : Str) : Option Str :=
  if pyStartsWith "**Explanation:**".data s then
    some (lazyUntilBlank (s.drop 16))
  else none

/-- `QuestionParser._extract_answer_and_explanation`: both searches must
succeed; the explanation group is stripped. -/
def extractAnswerAndExplanation (block : Str) : Option (Str × Str) :=
  match searchWith answerTry block with
  | none => none
  | some a =>
    match searchWith explTry block with
    | none => none
    | some e => some (a, pyStrip e)

/-- `QuestionParser._parse_question_block`. -/
def parseQuestionBlock (header : HeaderInfo) (block : Str) : Option Question :=
  match searchMarker block with
  | none => none
  | some n =>
    let qt := extractQuestionText block
    if qt.isEmpty then none
    else
      let opts := extractOptions block
      if opts.length ≠ 4 then none
      else
        match extractAnswerAndExplanation block with
        | none => none
        | some (ca, ex) =>
          some ⟨header.subject, header.topic, header.subtopic, n, qt, opts, ca, ex⟩

/-- `QuestionParser.parse_content`. -/
def parseContent (content : Str) : List Question :=
  let header := extractHeaderInfo content
  (splitIntoQuestionBlocks content).filterMap (parseQuestionBlock header)

/-- `QuestionParser.format_question_for_analysis`. -/
def formatQuestionForAnalysis (q : Question) : Str :=
  "Subject: ".data ++ q.subject ++
  "\nTopic: ".data ++ q.topic ++
  "\nSubtopic: ".data ++ q.subtopic ++
  "\n\nQuestion ".data ++ (Nat.toDigits 10 q.question_number) ++ ": ".data ++ q.question_text ++
  "\n\nOptions:\n".data ++ joinWith '\n' q.options ++
  "\n\nCorrect Answer: ".data ++ q.correct_answer ++
  "\n\nExplanation: ".data ++ q.explanation

/-! ## Embedding of `src/ollama_analyzer.py` -/

/-- `AnalysisResult` dataclass of `ollama_analyzer.py` (the rating is an
`int` produced from a digit run, hence a `Nat` here). -/
structure AnalysisResult where
  subject : Str
  topic : Str
  subtopic : Str
  question_complete : Str
  answer_explanation : Str
  rating : Nat
  conceptual_depth : Str
  answer_accuracy : Str
  topic_relevance : Str
  improved_version : Str
deriving DecidableEq

/-- Matcher for `(\d+)` at one position: a maximal digit run starting here. -/
def digitTry : Str → Option Nat
  | [] => none
  | c :: cs =>
    if c.isDigit then some (digitsVal ((c :: cs).takeWhile Char.isDigit)) else none

/-- `re.search(r'(\d+)', s)` followed by `int`, as used for ratings. -/
def extractFirstNat (s : Str) : Option Nat := searchWith digitTry s

/-- The filter of the data-row loop of `_parse_analysis_response`:
`'|' in line and not line.strip().startswith('|---') and 'Subject' not in
line`. -/
def lineQualifies (line : Str) : Bool :=
  containsSeq ['|'] line && !(pyStartsWith "|---".data (pyStrip line)) &&
    !(containsSeq "Subject".data line)

/-- `[cell.strip() for cell in line.split('|')[1:-1]]`. -/
def rowCells (line : Str) : List Str :=
  (((pySplit ['|'] line).drop 1).dropLast).map pyStrip

/-- The data-row loop of `_parse_analysis_response`: the first qualifying
line whose cell list has at least 9 entries. -/
def findDataRow : List Str → Option (List Str)
  | [] => none
  | line :: rest =>
    if lineQualifies line then
      let cells := rowCells line
      if 9 ≤ cells.length then some cells else findDataRow rest
    else findDataRow rest

/-- Case-insensitive literal matching, embedding `re.IGNORECASE` (ASCII). -/
def ciPrefixOf : Str → Str → Bool
  | [], _ => true
  | _ :: _, [] => false
  | p :: ps, c :: cs => p.toLower = c.toLower && ciPrefixOf ps cs

/-- The optional colon `:?` followed by `\s*([^\n]+)` of the fallback
patterns, including the backtracking into the colon when the tail after the
colon cannot match. -/
def fieldTail (rest : Str) : Option Str :=
  match rest with
  | ':' :: r =>
    match wsStarNonNl r with
    | some g => some g
    | none => wsStarNonNl rest
  | _ => wsStarNonNl rest

/-- `[^A-Z]` under `re.IGNORECASE` excludes both upper- and lower-case ASCII
letters. -/
def isReLetter (c : Char) : Bool :=
  ('A' ≤ c && c ≤ 'Z') || ('a' ≤ c && c ≤ 'z')

/-- Fuelled worker for the continuation group `(?:\n[^A-Z\n][^\n]*)*` of the
multi-line fallback patterns. -/
def contLinesFuel : Nat → Str → Str
  | 0, _ => []
  | fuel + 1, t =>
    match t with
    | '\n' :: c :: cs =>
      if !(isReLetter c) && c ≠ '\n' then
        let seg := cs.takeWhile (fun x => x ≠ '\n')
        '\n' :: c :: (seg ++ contLinesFuel fuel (cs.drop seg.length))
      else []
    | _ => []

/-- The continuation group `(?:\n[^A-Z\n][^\n]*)*`. -/
def contLines (t : Str) : Str := contLinesFuel t.length t

/-- `\s*([^\n]+(?:\n[^A-Z\n][^\n]*)*)` of the multi-line fallback patterns. -/
def multiGroup (t : Str) : Option Str :=
  match t.dropWhile isPySpace with
  | c :: r =>
    let fst := (c :: r).takeWhile (fun x => x ≠ '\n')
    some (fst ++ contLines ((c :: r).drop fst.length))
  | [] => wsStarNonNl t

/-- The optional colon followed by the multi-line group. -/
def multiTail (rest : Str) : Option Str :=
  match rest with
  | ':' :: r =>
    match multiGroup r with
    | some g => some g
    | none => multiGroup rest
  | _ => multiGroup rest

/-- Matcher for `Subject:?\s*([^\n]+)` (ignore-case) at one position. -/
def subjectTry (s : Str) : Option Str :=
  if ciPrefixOf "Subject".data s then fieldTail (s.drop 7) else none

/-- Matcher for `Topic:?\s*([^\n]+)` (ignore-case) at one position. -/
def topicTry (s : Str) : Option Str :=
  if ciPrefixOf "Topic".data s then fieldTail (s.drop 5) else none

/-- Matcher for `Subtopic:?\s*([^\n]+)` (ignore-case) at one position. -/
def subtopicTry (s : Str) : Option Str :=
  if ciPrefixOf "Subtopic".data s then fieldTail (s.drop 8) else none

/-- The lazy gap and digit group of `Rating.*?(\d+)`: skip non-newline
characters until a digit run starts. -/
def scanToDigit : Str → Option Str
  | [] => none
  | c :: cs =>
    if c.isDigit then some ((c :: cs).takeWhile Char.isDigit)
    else if c = '\n' then none
    else scanToDigit cs

/-- Matcher for `Rating.*?(\d+)` (ignore-case) at one position. -/
def ratingTry (s : Str) : Option Str :=
  if ciPrefixOf "Rating".data s then scanToDigit (s.drop 6) else none

/-- Matcher for `Conceptual Depth:?\s*(...)` (ignore-case) at one position. -/
def depthTry (s : Str) : Option Str :=
  if ciPrefixOf "Conceptual Depth".data s then multiTail (s.drop 16) else none

/-- Matcher for `Answer Accuracy:?\s*(...)` (ignore-case) at one position. -/
def accuracyTry (s : Str) : Option Str :=
  if ciPrefixOf "Answer Accuracy".data s then multiTail (s.drop 15) else none

/-- The `.*?Relevance:?\s*(...)` part of `Topic.*?Relevance:?\s*(...)`. -/
def relevanceTail : Str → Option Str
  | [] => none
  | c :: cs =>
    match (if ciPrefixOf "Relevance".data (c :: cs) then multiTail ((c :: cs).drop 9) else none) with
    | some g => some g
    | none => if c = '\n' then none else relevanceTail cs

/-- Matcher for `Topic.*?Relevance:?\s*(...)` (ignore-case) at one position. -/
def relevanceTry (s : Str) : Option Str :=
  if ciPrefixOf "Topic".data s then relevanceTail (s.drop 5) else none

/-- The default for an unmatched fallback field. -/
def notFound : Str := "Not found".data

/-- `OllamaAnalyzer._parse_fallback_format`.  The regex operations in its
`try` body cannot raise, so the `except` branch (returning `None`) is
unreachable and the embedding is total.  `extracted.get(key, ...)` defaults
are dead because every key is stored. -/
def parseFallbackFormat (responseText originalQuestion : Str) : AnalysisResult :=
  let subj := ((searchWith subjectTry responseText).map pyStrip).getD notFound
  let top := ((searchWith topicTry responseText).map pyStrip).getD notFound
  let sub := ((searchWith subtopicTry responseText).map pyStrip).getD notFound
  let rat := ((searchWith ratingTry responseText).map pyStrip).getD notFound
  let dep := ((searchWith depthTry responseText).map pyStrip).getD notFound
  let acc := ((searchWith accuracyTry responseText).map pyStrip).getD notFound
  let rel := ((searchWith relevanceTry responseText).map pyStrip).getD notFound
  { subject := subj.take 100
    topic := top.take 100
    subtopic := sub.take 100
    question_complete := originalQuestion.take 2000
    answer_explanation := "Analysis response parsing incomplete".data.take 2000
    rating := (extractFirstNat rat).getD 0
    conceptual_depth := dep.take 500
    answer_accuracy := acc.take 500
    topic_relevance := rel.take 500
    improved_version := "N/A - Parsing incomplete".data }

/-- `OllamaAnalyzer._parse_analysis_response`.  When a data row is found the
construction cannot raise (indices 0-8 exist because at least 9 cells were
required), so the outer `except` is unreachable; without a data row the
fallback result is returned. -/
def parseAnalysisResponse (responseText originalQuestion : Str) : Option AnalysisResult :=
  match findDataRow (pySplit ['\n'] responseText) with
  | none => some (parseFallbackFormat responseText originalQuestion)
  | some row =>
    some
      { subject := (row.getD 0 []).take 100
        topic := (row.getD 1 []).take 100
        subtopic := (row.getD 2 []).take 100
        question_complete := (row.getD 3 []).take 2000
        answer_explanation := (row.getD 4 []).take 2000
        rating := (extractFirstNat (row.getD 5 [])).getD 0
        conceptual_depth := (row.getD 6 []).take 500
        answer_accuracy := (row.getD 7 []).take 500
        topic_relevance := (row.getD 8 []).take 500
        improved_version := if 9 < row.length then (row.getD 9 []).take 2000 else "N/A".data }

/-- Observable events of `OllamaAnalyzer.analyze_question`: starting the
attempt with a given index, and sleeping for the retry delay. -/
inductive AnalysisEvent where
  | attempt (i : Nat)
  | sleep (d : Nat)
deriving DecidableEq

/-- The retry loop of `OllamaAnalyzer.analyze_question`, with the backend
call modelled by an oracle `chat` mapping the attempt index to either a
response text or an exception.  Structural recursion on the number of
remaining iterations of `range(max_retries)`. -/
def analyzeGo (chat : Nat → Except Unit Str) (questionText : Str)
    (maxRetries retryDelay : Nat) : Nat → Nat → List AnalysisEvent × Option AnalysisResult
  | 0, _ => ([], none)
  | remaining + 1, i =>
    let retryTail :=
      let pause := if i < maxRetries - 1 then [AnalysisEvent.sleep retryDelay] else []
      let next := analyzeGo chat questionText maxRetries retryDelay remaining (i + 1)
      (AnalysisEvent.attempt i :: (pause ++ next.1), next.2)
    match chat i with
    | .ok text =>
      match parseAnalysisResponse text questionText with
      | some r => ([AnalysisEvent.attempt i], some r)
      | none => retryTail
    | .error _ => retryTail

/-- `OllamaAnalyzer.analyze_question`: up to `maxRetries` attempts starting
at index 0. -/
def analyzeQuestion (chat : Nat → Except Unit Str) (questionText : Str)
    (maxRetries retryDelay : Nat) : List AnalysisEvent × Option AnalysisResult :=
  analyzeGo chat questionText maxRetries retryDelay maxRetries 0

/-! ## Embedding of `src/excel_generator.py`

Exceptions during cell writing and during `Workbook.save` are modelled by
fault-injection flags in the state: `writeFails` makes the row write raise
(caught by `add_analysis_result`), `saveFails` makes persisting raise
(caught inside `_save_workbook`).  `rows` is the worksheet's data region,
`saved` the artifact on disk. -/

/-- Mutable state of `ExcelGenerator` plus the fault-injection environment. -/
structure GenState where
  rows : List AnalysisResult
  currentRow : Nat
  saved : List AnalysisResult
  writeFails : Bool
  saveFails : Bool
deriving DecidableEq

/-- State after `__init__`/`_create_workbook`: headers written, cursor at
row 2, empty artifact persisted. -/
def initState : GenState :=
  { rows := [], currentRow := 2, saved := [], writeFails := false, saveFails := false }

/-- `ExcelGenerator._save_workbook`: persists the workbook, catching any
exception and returning `False` in that case. -/
def saveWorkbook (st : GenState) : GenState × Bool :=
  if st.saveFails then (st, false) else ({ st with saved := st.rows }, true)

/-- `ExcelGenerator.add_analysis_result`: write the row, advance the
cursor, save; an exception while writing is caught and yields `False`.  The
Boolean returned by `_save_workbook` is discarded, as in the source. -/
def addAnalysisResult (st : GenState) (result : AnalysisResult) : GenState × Bool :=
  if st.writeFails then (st, false)
  else
    let st1 := { st with rows := st.rows ++ [result], currentRow := st.currentRow + 1 }
    ((saveWorkbook st1).1, true)

/-- The fill colors applied to a rating cell by
`ExcelGenerator._format_data_cell`. -/
inductive Fill where
  | green
  | yellow
  | orange
  | red
deriving DecidableEq

/-- The rating-cell color coding of `_format_data_cell`. -/
def ratingFill (rating : Nat) : Fill :=
  if 9 ≤ rating then Fill.green
  else if 7 ≤ rating then Fill.yellow
  else if 5 ≤ rating then Fill.orange
  else Fill.red

/-- The summary block values written by `ExcelGenerator.finalize_excel`. -/
structure Summary where
  highCount : Nat
  goodCount : Nat
  avgCount : Nat
  lowCount : Nat
  total : Nat
deriving DecidableEq

/-- Semantics of the `COUNTIFS`/`COUNTIF` formulas `finalize_excel` writes
over the rating range `F2:F(current_row-1)`, together with the literal
total `current_row - 2`. -/
def summaryCounts (st : GenState) : Summary :=
  let rs := st.rows.map AnalysisResult.rating
  { highCount := (rs.filter (fun r => decide (9 ≤ r))).length
    goodCount := (rs.filter (fun r => decide (7 ≤ r) && decide (r < 9))).length
    avgCount := (rs.filter (fun r => decide (5 ≤ r) && decide (r < 7))).length
    lowCount := (rs.filter (fun r => decide (r < 5))).length
    total := st.currentRow - 2 }

/-- `ExcelGenerator.finalize_excel`: writes the summary block (only when at
least one data row exists) and saves. -/
def finalizeExcel (st : GenState) : GenState × Option Summary :=
  ((saveWorkbook st).1, if 2 < st.currentRow then some (summaryCounts st) else none)

/-- `add_analysis_result` iterated over a list of results, keeping the
state. -/
def appendAll (st : GenState) (results : List AnalysisResult) : GenState :=
  results.foldl (fun s r => (addAnalysisResult s r).1) st

/-! ## Shared helper lemmas -/

theorem pyStartsWith_iff (p s : Str) : pyStartsWith p s = true ↔ ∃ t, s = p ++ t := by
  induction p generalizing s with
  | nil =>
    simp only [pyStartsWith, List.nil_append, true_iff]
    exact ⟨s, rfl⟩
  | cons a ps ih =>
    cases s with
    | nil =>
      simp [pyStartsWith]
    | cons c cs =>
      simp only [pyStartsWith, Bool.and_eq_true, decide_eq_true_eq, ih, List.cons_append,
        List.cons.injEq]
      constructor
      · rintro ⟨rfl, t, rfl⟩
        exact ⟨t, rfl, rfl⟩
      · rintro ⟨t, rfl, rfl⟩
        exact ⟨rfl, t, rfl⟩

theorem takeWhileAppendAll (p : Char → Bool) (d b : Str) (h : ∀ c ∈ d, p c = true) :
    (d ++ b).takeWhile p = d ++ b.takeWhile p := by
  induction d with
  | nil => rfl
  | cons c cs ih =>
    simp only [List.cons_append, List.takeWhile_cons, h c (List.mem_cons_self c cs),
      if_true, List.cons.injEq, true_and]
    exact ih fun x hx => h x (List.mem_cons_of_mem c hx)

theorem dropWhileAppendAll (p : Char → Bool) (d b : Str) (h : ∀ c ∈ d, p c = true) :
    (d ++ b).dropWhile p = b.dropWhile p := by
  induction d with
  | nil => rfl
  | cons c cs ih =>
    simp only [List.cons_append, List.dropWhile_cons, h c (List.mem_cons_self c cs), if_true]
    exact ih fun x hx => h x (List.mem_cons_of_mem c hx)

/-! ## Claim C2 -/

/-- A concrete analysis result used in concrete instantiations. -/
def exResult : AnalysisResult :=
  { subject := "History".data
    topic := "Ancient".data
    subtopic := "Rome".data
    question_complete := "Q?".data
    answer_explanation := "A!".data
    rating := 8
    conceptual_depth := "deep".data
    answer_accuracy := "correct".data
    topic_relevance := "high".data
    improved_version := "better".data }

/-- A state whose next workbook save raises (disk fault injected). -/
def exStateSaveFail : GenState :=
  { rows := [], currentRow := 2, saved := [], writeFails := false, saveFails := true }

/-- Claim C2, counterexample: when persisting the artifact fails,
`add_analysis_result` still returns `True` (the saved artifact does not
contain the row that was written), so the operation does not return false on
a persist exception. -/
theorem c2_counterexample :
    (addAnalysisResult exStateSaveFail exResult).2 = true ∧
    (addAnalysisResult exStateSaveFail exResult).1.saved ≠
      (addAnalysisResult exStateSaveFail exResult).1.rows := by
  decide

/-- Claim C2, amended: `add_analysis_result` returns false exactly when an
exception occurs while writing the row; an exception while persisting is
caught inside `_save_workbook` and does not affect the returned Boolean,
and when neither fault occurs the row is written and the artifact on disk
reflects it. -/
theorem c2_amended (st : GenState) (r : AnalysisResult) :
    ((addAnalysisResult st r).2 = true ↔ st.writeFails = false) ∧
    (st.writeFails = false → st.saveFails = false →
      (addAnalysisResult st r).1.rows = st.rows ++ [r] ∧
      (addAnalysisResult st r).1.saved = st.rows ++ [r]) := by
  constructor
  · cases hw : st.writeFails <;> simp [addAnalysisResult, hw]
  · intro hw hs
    simp [addAnalysisResult, saveWorkbook, hw, hs]

/-- Witness for C2's amended theorem at a concrete fault-free state. -/
theorem c2_amended_witness :
    (addAnalysisResult initState exResult).2 = true ∧
    (addAnalysisResult initState exResult).1.saved = initState.rows ++ [exResult] :=
  ⟨(c2_amended initState exResult).1.mpr rfl,
    ((c2_amended initState exResult).2 rfl rfl).2⟩

/-! ## Claim C9 -/

theorem tierFilterLen (l : List Nat) :
    (l.filter (fun r => decide (9 ≤ r))).length +
    (l.filter (fun r => decide (7 ≤ r) && decide (r < 9))).length +
    (l.filter (fun r => decide (5 ≤ r) && decide (r < 7))).length +
    (l.filter (fun r => decide (r < 5))).length = l.length := by
  induction l with
  | nil => rfl
  | cons a t ih =>
    have key : ∀ x y : Nat, (decide (x ≤ a) : Bool) = decide (x ≤ a) := fun _ _ => rfl
    simp only [List.filter_cons, List.length_cons]
    rcases Nat.lt_or_ge a 5 with h | h
    · have e1 : decide (9 ≤ a) = false := by simp only [decide_eq_false_iff_not]; omega
      have e2 : decide (7 ≤ a) = false := by simp only [decide_eq_false_iff_not]; omega
      have e3 : decide (5 ≤ a) = false := by simp only [decide_eq_false_iff_not]; omega
      have e4 : decide (a < 5) = true := by simp only [decide_eq_true_eq]; omega
      simp [e1, e2, e3, e4]
      omega
    · rcases Nat.lt_or_ge a 7 with h' | h'
      · have e1 : decide (9 ≤ a) = false := by simp only [decide_eq_false_iff_not]; omega
        have e2 : decide (7 ≤ a) = false := by simp only [decide_eq_false_iff_not]; omega
        have e3 : decide (5 ≤ a) = true := by simp only [decide_eq_true_eq]; omega
        have e4 : decide (a < 5) = false := by simp only [decide_eq_false_iff_not]; omega
        have e5 : decide (a < 7) = true := by simp only [decide_eq_true_eq]; omega
        simp [e1, e2, e3, e4, e5]
        omega
      · rcases Nat.lt_or_ge a 9 with h'' | h''
        · have e1 : decide (9 ≤ a) = false := by simp only [decide_eq_false_iff_not]; omega
          have e2 : decide (7 ≤ a) = true := by simp only [decide_eq_true_eq]; omega
          have e3 : decide (5 ≤ a) = true := by simp only [decide_eq_true_eq]; omega
          have e4 : decide (a < 5) = false := by simp only [decide_eq_false_iff_not]; omega
          have e5 : decide (a < 7) = false := by simp only [decide_eq_false_iff_not]; omega
          have e6 : decide (a < 9) = true := by simp only [decide_eq_true_eq]; omega
          simp [e1, e2, e3, e4, e5, e6]
          omega
        · have e1 : decide (9 ≤ a) = true := by simp only [decide_eq_true_eq]; omega
          have e2 : decide (7 ≤ a) = true := by simp only [decide_eq_true_eq]; omega
          have e3 : decide (5 ≤ a) = true := by simp only [decide_eq_true_eq]; omega
          have e4 : decide (a < 5) = false := by simp only [decide_eq_false_iff_not]; omega
          have e5 : decide (a < 7) = false := by simp only [decide_eq_false_iff_not]; omega
          have e6 : decide (a < 9) = false := by simp only [decide_eq_false_iff_not]; omega
          simp [e1, e2, e3, e4, e5, e6]
          omega

theorem addAnalysisResult_state (st : GenState) (r : AnalysisResult)
    (hw : st.writeFails = false) :
    (addAnalysisResult st r).1.rows = st.rows ++ [r] ∧
    (addAnalysisResult st r).1.currentRow = st.currentRow + 1 ∧
    (addAnalysisResult st r).1.writeFails = false ∧
    (addAnalysisResult st r).2 = true := by
  cases hs : st.saveFails <;> simp [addAnalysisResult, saveWorkbook, hw, hs]

theorem appendAll_state (results : List AnalysisResult) (st : GenState)
    (hw : st.writeFails = false) :
    (appendAll st results).rows = st.rows ++ results ∧
    (appendAll st results).currentRow = st.currentRow + results.length := by
  induction results generalizing st with
  | nil => simp [appendAll]
  | cons r rest ih =>
    have h1 := addAnalysisResult_state st r hw
    have h2 := ih (addAnalysisResult st r).1 h1.2.2.1
    have e : appendAll st (r :: rest) = appendAll (addAnalysisResult st r).1 rest := rfl
    rw [e]
    refine ⟨?_, ?_⟩
    · rw [h2.1, h1.1]
      simp
    · rw [h2.2, h1.2.1]
      simp [Nat.add_assoc, Nat.add_comm 1 rest.length]

theorem ratingFill_green (n : Nat) : ratingFill n = Fill.green ↔ 9 ≤ n := by
  unfold ratingFill
  by_cases h1 : 9 ≤ n <;> by_cases h2 : 7 ≤ n <;> by_cases h3 : 5 ≤ n <;>
    simp [h1, h2, h3]

theorem ratingFill_yellow (n : Nat) : ratingFill n = Fill.yellow ↔ 7 ≤ n ∧ n < 9 := by
  unfold ratingFill
  by_cases h1 : 9 ≤ n <;> by_cases h2 : 7 ≤ n <;> by_cases h3 : 5 ≤ n <;>
    simp [h1, h2, h3] <;> omega

theorem ratingFill_orange (n : Nat) : ratingFill n = Fill.orange ↔ 5 ≤ n ∧ n < 7 := by
  unfold ratingFill
  by_cases h1 : 9 ≤ n <;> by_cases h2 : 7 ≤ n <;> by_cases h3 : 5 ≤ n <;>
    simp [h1, h2, h3] <;> omega

theorem ratingFill_red (n : Nat) : ratingFill n = Fill.red ↔ n < 5 := by
  unfold ratingFill
  by_cases h1 : 9 ≤ n <;> by_cases h2 : 7 ≤ n <;> by_cases h3 : 5 ≤ n <;>
    simp [h1, h2, h3] <;> omega

theorem filterMapRatingLen (rows : List AnalysisResult) (p : Nat → Bool) :
    ((rows.map AnalysisResult.rating).filter p).length =
      (rows.filter (fun r => p r.rating)).length := by
  induction rows with
  | nil => rfl
  | cons r rest ih =>
    simp only [List.map_cons, List.filter_cons]
    cases hp : p r.rating <;> simp [hp, ih]

/-- Claim C9: starting from a fresh generator, `N` successful `append`
calls followed by `finalize` leave exactly `N` data rows, and the four
rating tiers (≥9, [7,9), [5,7), <5) used both for the summary `COUNTIFS`
formulas and for the rating-cell fills partition the rows, so the four
summary counts add up to `N` and each count equals the number of rows
styled with the corresponding fill. -/
theorem c9_append_finalize (results : List AnalysisResult) (hne : results ≠ []) :
    (appendAll initState results).rows.length = results.length ∧
    ∃ s, (finalizeExcel (appendAll initState results)).2 = some s ∧
      s.highCount + s.goodCount + s.avgCount + s.lowCount = results.length ∧
      s.total = results.length ∧
      s.highCount = ((appendAll initState results).rows.filter
        (fun r => decide (ratingFill r.rating = Fill.green))).length ∧
      s.goodCount = ((appendAll initState results).rows.filter
        (fun r => decide (ratingFill r.rating = Fill.yellow))).length ∧
      s.avgCount = ((appendAll initState results).rows.filter
        (fun r => decide (ratingFill r.rating = Fill.orange))).length ∧
      s.lowCount = ((appendAll initState results).rows.filter
        (fun r => decide (ratingFill r.rating = Fill.red))).length := by
  obtain ⟨hrows, hcur⟩ := appendAll_state results initState rfl
  have hrows' : (appendAll initState results).rows = results := by
    rw [hrows]; rfl
  have hlen : 0 < results.length := List.length_pos.mpr hne
  have hcur' : (appendAll initState results).currentRow = 2 + results.length := hcur
  refine ⟨by rw [hrows'], summaryCounts (appendAll initState results), ?_, ?_, ?_, ?_, ?_, ?_, ?_⟩
  · unfold finalizeExcel
    have : 2 < (appendAll initState results).currentRow := by omega
    simp [this]
  · unfold summaryCounts
    simp only [hrows']
    simpa using tierFilterLen (results.map AnalysisResult.rating)
  · unfold summaryCounts
    simp only [hcur']
    omega
  · unfold summaryCounts
    simp only [hrows']
    rw [filterMapRatingLen]
    congr 1
    apply List.filter_congr
    intro r _
    rw [decide_eq_decide]
    exact (ratingFill_green r.rating).symm
  · unfold summaryCounts
    simp only [hrows']
    rw [filterMapRatingLen]
    congr 1
    apply List.filter_congr
    intro r _
    apply Bool.eq_iff_iff.mpr
    simp only [Bool.and_eq_true, decide_eq_true_eq]
    exact (ratingFill_yellow r.rating).symm
  · unfold summaryCounts
    simp only [hrows']
    rw [filterMapRatingLen]
    congr 1
    apply List.filter_congr
    intro r _
    apply Bool.eq_iff_iff.mpr
    simp only [Bool.and_eq_true, decide_eq_true_eq]
    exact (ratingFill_orange r.rating).symm
  · unfold summaryCounts
    simp only [hrows']
    rw [filterMapRatingLen]
    congr 1
    apply List.filter_congr
    intro r _
    rw [decide_eq_decide]
    exact (ratingFill_red r.rating).symm

/-- Witness for C9 at a one-element result list. -/
theorem c9_append_finalize_witness :
    (appendAll initState [exResult]).rows.length = 1 ∧
    ∃ s, (finalizeExcel (appendAll initState [exResult])).2 = some s ∧
      s.highCount + s.goodCount + s.avgCount + s.lowCount = 1 ∧
      s.total = 1 ∧
      s.highCount = ((appendAll initState [exResult]).rows.filter
        (fun r => decide (ratingFill r.rating = Fill.green))).length ∧
      s.goodCount = ((appendAll initState [exResult]).rows.filter
        (fun r => decide (ratingFill r.rating = Fill.yellow))).length ∧
      s.avgCount = ((appendAll initState [exResult]).rows.filter
        (fun r => decide (ratingFill r.rating = Fill.orange))).length ∧
      s.lowCount = ((appendAll initState [exResult]).rows.filter
        (fun r => decide (ratingFill r.rating = Fill.red))).length :=
  c9_append_finalize [exResult] (by decide)

/-! ## Claim C5 -/

/-- Whether an event is the start of a submit-and-parse attempt. -/
def isAttemptEvent : AnalysisEvent → Bool
  | AnalysisEvent.attempt _ => true
  | AnalysisEvent.sleep _ => false

theorem analyzeGo_attempts_le (chat : Nat → Except Unit Str) (q : Str)
    (maxR delay : Nat) : ∀ rem i,
    ((analyzeGo chat q maxR delay rem i).1.countP isAttemptEvent) ≤ rem := by
  intro rem
  induction rem with
  | zero =>
    intro i
    simp [analyzeGo]
  | succ r ih =>
    intro i
    have h1 : (if i < maxR - 1 then [AnalysisEvent.sleep delay] else []).countP
        isAttemptEvent = 0 := by
      split <;> rfl
    have h2 := ih (i + 1)
    simp only [analyzeGo]
    cases hc : chat i with
    | ok text =>
      cases hp : parseAnalysisResponse text q with
      | some res =>
        simp only [hp]
        simp [List.countP_cons, isAttemptEvent]
      | none =>
        simp only [hp, List.countP_cons, List.countP_append, isAttemptEvent, h1, if_true]
        omega
    | error e =>
      simp only [List.countP_cons, List.countP_append, isAttemptEvent, h1, if_true]
      omega

theorem analyzeGo_all_fail (chat : Nat → Except Unit Str) (q : Str)
    (maxR delay : Nat) (hf : ∀ j, j < maxR → chat j = Except.error ()) :
    ∀ rem i, rem + i = maxR →
    analyzeGo chat q maxR delay rem i =
      ((List.range' i rem).flatMap
        (fun j => AnalysisEvent.attempt j ::
          (if j < maxR - 1 then [AnalysisEvent.sleep delay] else [])), none) := by
  intro rem
  induction rem with
  | zero =>
    intro i _
    simp [analyzeGo]
  | succ r ih =>
    intro i hsum
    have hi : i < maxR := by omega
    have hc := hf i hi
    have hnext := ih (i + 1) (by omega)
    simp only [analyzeGo, hc, hnext, List.range'_succ, List.flatMap_cons, List.cons_append]

/-- Claim C5: `analyze_question` performs at most `max_retries`
submit-and-parse attempts; when every attempt fails it returns `None`
(rather than raising) and its event trace consists of the `max_retries`
attempts, each failed attempt except the final one followed by one
fixed-length sleep. -/
theorem c5_retry_policy (chat : Nat → Except Unit Str) (q : Str) (maxR delay : Nat) :
    ((analyzeQuestion chat q maxR delay).1.countP isAttemptEvent ≤ maxR) ∧
    ((∀ j, j < maxR → chat j = Except.error ()) →
      (analyzeQuestion chat q maxR delay).2 = none ∧
      (analyzeQuestion chat q maxR delay).1 =
        (List.range maxR).flatMap
          (fun j => AnalysisEvent.attempt j ::
            (if j < maxR - 1 then [AnalysisEvent.sleep delay] else []))) := by
  constructor
  · exact analyzeGo_attempts_le chat q maxR delay maxR 0
  · intro hf
    have h := analyzeGo_all_fail chat q maxR delay hf maxR 0 (by omega)
    unfold analyzeQuestion
    rw [h, List.range_eq_range']
    exact ⟨rfl, rfl⟩

/-- Witness for C5 with three attempts all raising. -/
theorem c5_retry_policy_witness :
    (analyzeQuestion (fun _ => Except.error ()) [] 3 5).2 = none ∧
    (analyzeQuestion (fun _ => Except.error ()) [] 3 5).1 =
      (List.range 3).flatMap
        (fun j => AnalysisEvent.attempt j ::
          (if j < 3 - 1 then [AnalysisEvent.sleep 5] else [])) :=
  (c5_retry_policy (fun _ => Except.error ()) [] 3 5).2 (fun _ _ => rfl)

/-! ## Claim C6 -/

theorem pyStartsWith_self_append (p t : Str) : pyStartsWith p (p ++ t) = true :=
  (pyStartsWith_iff p (p ++ t)).mpr ⟨t, rfl⟩

theorem subtopicNotSubject (t : Str) :
    pyStartsWith "Subject:".data ("Subtopic:".data ++ t) = false := rfl

theorem subtopicNotTopic (t : Str) :
    pyStartsWith "Topic:".data ("Subtopic:".data ++ t) = false := rfl

theorem extractHeaderLines_subject_stable : ∀ (ls : List Str) (h : HeaderInfo),
    (∀ l ∈ ls, pyStartsWith "Subject:".data (pyStrip l) = false) →
    (extractHeaderLines ls h).subject = h.subject := by
  intro ls
  induction ls with
  | nil =>
    intro h _
    rfl
  | cons l rest ih =>
    intro h hall
    have h0 := hall l (List.mem_cons_self l rest)
    simp only [extractHeaderLines, h0, Bool.false_eq_true, if_false]
    split
    · rw [ih _ (fun x hx => hall x (List.mem_cons_of_mem l hx))]
    · split
      · rfl
      · exact ih _ (fun x hx => hall x (List.mem_cons_of_mem l hx))

theorem extractHeaderLines_topic_stable : ∀ (ls : List Str) (h : HeaderInfo),
    (∀ l ∈ ls, pyStartsWith "Topic:".data (pyStrip l) = false) →
    (extractHeaderLines ls h).topic = h.topic := by
  intro ls
  induction ls with
  | nil =>
    intro h _
    rfl
  | cons l rest ih =>
    intro h hall
    have h0 := hall l (List.mem_cons_self l rest)
    simp only [extractHeaderLines, h0, Bool.false_eq_true, if_false]
    split
    · rw [ih _ (fun x hx => hall x (List.mem_cons_of_mem l hx))]
    · split
      · rfl
      · exact ih _ (fun x hx => hall x (List.mem_cons_of_mem l hx))

theorem extractHeaderLines_subtopic_stable : ∀ (ls : List Str) (h : HeaderInfo),
    (∀ l ∈ ls, pyStartsWith "Subtopic:".data (pyStrip l) = false) →
    (extractHeaderLines ls h).subtopic = h.subtopic := by
  intro ls
  induction ls with
  | nil =>
    intro h _
    rfl
  | cons l rest ih =>
    intro h hall
    have h0 := hall l (List.mem_cons_self l rest)
    simp only [extractHeaderLines, h0, Bool.false_eq_true, if_false]
    split
    · exact ih _ (fun x hx => hall x (List.mem_cons_of_mem l hx))
    · split
      · exact ih _ (fun x hx => hall x (List.mem_cons_of_mem l hx))
      · exact ih _ (fun x hx => hall x (List.mem_cons_of_mem l hx))

theorem extractHeaderLines_stop (st : Str)
    (hst : pyStartsWith "Subtopic:".data (pyStrip st) = true) :
    ∀ (ls1 ls2 : List Str) (h : HeaderInfo),
    extractHeaderLines (ls1 ++ st :: ls2) h = extractHeaderLines (ls1 ++ [st]) h := by
  intro ls1
  induction ls1 with
  | nil =>
    intro ls2 h
    obtain ⟨t, ht⟩ := (pyStartsWith_iff _ _).mp hst
    simp only [List.nil_append, extractHeaderLines, ht]
    rfl
  | cons l ls1' ih =>
    intro ls2 h
    simp only [List.cons_append, extractHeaderLines]
    split
    · exact ih ls2 _
    · split
      · exact ih ls2 _
      · split
        · rfl
        · exact ih ls2 _

/-- Claim C6, counterexample: with the three header lines in the order
`Subtopic:`, `Subject:`, `Topic:` — all inside the first 10 lines — the
`Subject:` line is not captured, because scanning stops at the first
`Subtopic:` line rather than when all three fields have been found. -/
theorem c6_counterexample :
    ("Subject: a".data ∈ (pySplit ['\n'] "Subtopic: s\nSubject: a\nTopic: t".data).take 10) ∧
    ("Topic: t".data ∈ (pySplit ['\n'] "Subtopic: s\nSubject: a\nTopic: t".data).take 10) ∧
    (extractHeaderInfo "Subtopic: s\nSubject: a\nTopic: t".data).subject = [] ∧
    (extractHeaderInfo "Subtopic: s\nSubject: a\nTopic: t".data).topic = [] ∧
    (extractHeaderInfo "Subtopic: s\nSubject: a\nTopic: t".data).subtopic = "s".data := by
  decide

/-- Claim C6, amended: header extraction depends only on the first 10 lines
of the input, assigns each field whose literal prefix starts no scanned line
the empty string, and stops scanning at the first `Subtopic:` line (or when
the 10-line window is exhausted) — so lines after the first `Subtopic:`
line are ignored even when their own prefixes appear within the window. -/
theorem c6_amended :
    (∀ c1 c2 : Str, (pySplit ['\n'] c1).take 10 = (pySplit ['\n'] c2).take 10 →
      extractHeaderInfo c1 = extractHeaderInfo c2) ∧
    (∀ content : Str,
      (∀ l ∈ (pySplit ['\n'] content).take 10,
        pyStartsWith "Subject:".data (pyStrip l) = false) →
      (extractHeaderInfo content).subject = []) ∧
    (∀ content : Str,
      (∀ l ∈ (pySplit ['\n'] content).take 10,
        pyStartsWith "Topic:".data (pyStrip l) = false) →
      (extractHeaderInfo content).topic = []) ∧
    (∀ content : Str,
      (∀ l ∈ (pySplit ['\n'] content).take 10,
        pyStartsWith "Subtopic:".data (pyStrip l) = false) →
      (extractHeaderInfo content).subtopic = []) ∧
    (∀ (ls1 ls2 : List Str) (st : Str) (h : HeaderInfo),
      pyStartsWith "Subtopic:".data (pyStrip st) = true →
      extractHeaderLines (ls1 ++ st :: ls2) h = extractHeaderLines (ls1 ++ [st]) h) := by
  refine ⟨?_, ?_, ?_, ?_, ?_⟩
  · intro c1 c2 hw
    unfold extractHeaderInfo
    rw [hw]
  · intro content hall
    exact extractHeaderLines_subject_stable _ _ hall
  · intro content hall
    exact extractHeaderLines_topic_stable _ _ hall
  · intro content hall
    exact extractHeaderLines_subtopic_stable _ _ hall
  · intro ls1 ls2 st h hst
    exact extractHeaderLines_stop st hst ls1 ls2 h

/-- Witness for C6's amended theorem at concrete inputs. -/
theorem c6_amended_witness :
    (extractHeaderInfo "Subject: x\nTopic: y".data =
      extractHeaderInfo "Subject: x\nTopic: y".data) ∧
    (extractHeaderInfo "no header here".data).subject = [] ∧
    extractHeaderLines (["x".data] ++ "Subtopic: s".data :: ["Subject: a".data])
        ⟨[], [], []⟩ =
      extractHeaderLines (["x".data] ++ ["Subtopic: s".data]) ⟨[], [], []⟩ :=
  ⟨c6_amended.1 _ _ rfl,
    c6_amended.2.1 "no header here".data (by decide),
    c6_amended.2.2.2.2 ["x".data] ["Subject: a".data] "Subtopic: s".data ⟨[], [], []⟩
      (by decide)⟩

/-! ## Claim C3 -/

theorem extractFirstNat_none (s : Str) (h : ∀ c ∈ s, c.isDigit = false) :
    extractFirstNat s = none := by
  induction s with
  | nil => rfl
  | cons c cs ih =>
    have hc := h c (List.mem_cons_self c cs)
    have ih' := ih fun x hx => h x (List.mem_cons_of_mem c hx)
    simp only [extractFirstNat, searchWith, digitTry, hc, Bool.false_eq_true, if_false]
    exact ih'

theorem extractFirstNat_decomp (a d b : Str)
    (ha : ∀ c ∈ a, c.isDigit = false)
    (hd0 : d ≠ []) (hd : ∀ c ∈ d, c.isDigit = true)
    (hb : ∀ c, b.head? = some c → c.isDigit = false) :
    extractFirstNat (a ++ d ++ b) = some (digitsVal d) := by
  induction a with
  | nil =>
    cases d with
    | nil => exact absurd rfl hd0
    | cons e d' =>
      have he := hd e (List.mem_cons_self e d')
      have htw : ((e :: d') ++ b).takeWhile Char.isDigit = e :: d' := by
        rw [takeWhileAppendAll Char.isDigit (e :: d') b hd]
        cases b with
        | nil => simp
        | cons x xs =>
          have hx := hb x rfl
          simp [List.takeWhile_cons, hx]
      simp only [List.nil_append, extractFirstNat, searchWith, List.cons_append, digitTry, he,
        if_true]
      show some (digitsVal (List.takeWhile Char.isDigit ((e :: d') ++ b))) = _
      rw [htw]
  | cons c a' ih =>
    have hc := ha c (List.mem_cons_self c a')
    have ih' := ih fun x hx => ha x (List.mem_cons_of_mem c hx)
    simp only [List.cons_append, extractFirstNat, searchWith, digitTry, hc, Bool.false_eq_true,
      if_false]
    exact ih'

/-- Claim C3: whenever the primary parser finds a qualifying pipe-delimited
data row (at least 9 cells), the analysis succeeds and the rating equals the
value of the first embedded digit run of cell index 5 — in particular a
rating cell `"8/10"` yields rating 8 — and the rating is 0 when that cell
contains no digit. -/
theorem c3_rating_cell (resp orig : Str) (cells : List Str)
    (hfind : findDataRow (pySplit ['\n'] resp) = some cells) :
    ∃ r, parseAnalysisResponse resp orig = some r ∧
      (∀ a d b : Str, cells.getD 5 [] = a ++ d ++ b →
        (∀ c ∈ a, c.isDigit = false) → d ≠ [] → (∀ c ∈ d, c.isDigit = true) →
        (∀ c, b.head? = some c → c.isDigit = false) →
        r.rating = digitsVal d) ∧
      ((∀ c ∈ cells.getD 5 [], c.isDigit = false) → r.rating = 0) := by
  simp only [parseAnalysisResponse, hfind]
  refine ⟨_, rfl, ?_, ?_⟩
  · intro a d b hcell ha hd0 hd hb
    simp only [hcell, extractFirstNat_decomp a d b ha hd0 hd hb, Option.getD_some]
  · intro hall
    simp only [extractFirstNat_none _ hall, Option.getD_none]

/-- A backend response consisting of one conforming table row whose rating
cell is `8/10`. -/
def exC3resp : Str :=
  "| History | Ancient | Rome | Q? | A! | 8/10 | deep | correct | high | better |".data

/-- The cells the data-row loop extracts from `exC3resp`. -/
def exC3cells : List Str :=
  ["History".data, "Ancient".data, "Rome".data, "Q?".data, "A!".data, "8/10".data,
    "deep".data, "correct".data, "high".data, "better".data]

/-- Witness for C3: the `8/10` rating cell yields rating 8. -/
theorem c3_rating_cell_witness :
    ∃ r, parseAnalysisResponse exC3resp [] = some r ∧ r.rating = 8 := by
  obtain ⟨r, hr, h1, _⟩ := c3_rating_cell exC3resp [] exC3cells (by decide)
  refine ⟨r, hr, ?_⟩
  have h := h1 [] "8".data "/10".data (by decide) (by decide) (by decide) (by decide) (by decide)
  rw [h]
  decide

/-! ## Claim C4 -/

/-- Claim C4: in the fallback parser every labeled field whose pattern does
not match the response resolves to the literal `"Not found"`, the rating is
0 when no rating pattern matches (no integer is extractable), the
answer/explanation field is the fixed placeholder
`"Analysis response parsing incomplete"`, and the question field is the
(truncated) original formatted question rather than response text. -/
theorem c4_fallback_defaults (resp orig : Str) :
    (searchWith subjectTry resp = none →
      (parseFallbackFormat resp orig).subject = notFound) ∧
    (searchWith topicTry resp = none →
      (parseFallbackFormat resp orig).topic = notFound) ∧
    (searchWith subtopicTry resp = none →
      (parseFallbackFormat resp orig).subtopic = notFound) ∧
    (searchWith depthTry resp = none →
      (parseFallbackFormat resp orig).conceptual_depth = notFound) ∧
    (searchWith accuracyTry resp = none →
      (parseFallbackFormat resp orig).answer_accuracy = notFound) ∧
    (searchWith relevanceTry resp = none →
      (parseFallbackFormat resp orig).topic_relevance = notFound) ∧
    (searchWith ratingTry resp = none → (parseFallbackFormat resp orig).rating = 0) ∧
    (parseFallbackFormat resp orig).answer_explanation =
      "Analysis response parsing incomplete".data ∧
    (parseFallbackFormat resp orig).question_complete = orig.take 2000 := by
  refine ⟨?_, ?_, ?_, ?_, ?_, ?_, ?_, ?_, ?_⟩
  · intro h
    simp [parseFallbackFormat, h]
    decide
  · intro h
    simp [parseFallbackFormat, h]
    decide
  · intro h
    simp [parseFallbackFormat, h]
    decide
  · intro h
    simp [parseFallbackFormat, h]
    decide
  · intro h
    simp [parseFallbackFormat, h]
    decide
  · intro h
    simp [parseFallbackFormat, h]
    decide
  · intro h
    simp [parseFallbackFormat, h]
    decide
  · simp [parseFallbackFormat]
  · simp [parseFallbackFormat]

/-- Witness for C4 at a response matching none of the fallback patterns. -/
theorem c4_fallback_defaults_witness :
    (parseFallbackFormat "xyz".data "abc".data).subject = notFound ∧
    (parseFallbackFormat "xyz".data "abc".data).rating = 0 ∧
    (parseFallbackFormat "xyz".data "abc".data).answer_explanation =
      "Analysis response parsing incomplete".data ∧
    (parseFallbackFormat "xyz".data "abc".data).question_complete =
      "abc".data.take 2000 :=
  ⟨(c4_fallback_defaults "xyz".data "abc".data).1 (by decide),
    (c4_fallback_defaults "xyz".data "abc".data).2.2.2.2.2.2.1 (by decide),
    (c4_fallback_defaults "xyz".data "abc".data).2.2.2.2.2.2.2.1,
    (c4_fallback_defaults "xyz".data "abc".data).2.2.2.2.2.2.2.2⟩

/-! ## Claim C10 -/

theorem findDataRow_mem (ls : List Str) (cells : List Str)
    (h : findDataRow ls = some cells) :
    ∃ l ∈ ls, cells = rowCells l ∧ lineQualifies l = true := by
  induction ls with
  | nil => exact absurd h (by simp [findDataRow])
  | cons l rest ih =>
    by_cases hq : lineQualifies l = true
    · by_cases hn : 9 ≤ (rowCells l).length
      · have : some (rowCells l) = some cells := by
          rw [← h]
          simp [findDataRow, hq, hn]
        exact ⟨l, List.mem_cons_self l rest, (Option.some_inj.mp this).symm, hq⟩
      · have h' : findDataRow rest = some cells := by
          rw [← h]
          simp [findDataRow, hq, hn]
        obtain ⟨x, hx, he, hxq⟩ := ih h'
        exact ⟨x, List.mem_cons_of_mem l hx, he, hxq⟩
    · have h' : findDataRow rest = some cells := by
        rw [← h]
        simp [findDataRow, hq]
      obtain ⟨x, hx, he, hxq⟩ := ih h'
      exact ⟨x, List.mem_cons_of_mem l hx, he, hxq⟩

theorem findDataRow_none_of_subject (ls : List Str)
    (h : ∀ l ∈ ls, containsSeq ['|'] l = true → 9 ≤ (rowCells l).length →
      containsSeq "Subject".data l = true) :
    findDataRow ls = none := by
  induction ls with
  | nil => rfl
  | cons l rest ih =>
    have ih' := ih fun x hx => h x (List.mem_cons_of_mem l hx)
    by_cases hq : lineQualifies l = true
    · have hns : containsSeq "Subject".data l = false := by
        have := hq
        simp only [lineQualifies, Bool.and_eq_true, Bool.not_eq_true'] at this
        exact this.2
      by_cases hn : 9 ≤ (rowCells l).length
      · have hp : containsSeq ['|'] l = true := by
          have := hq
          simp only [lineQualifies, Bool.and_eq_true, Bool.not_eq_true'] at this
          exact this.1.1
        have := h l (List.mem_cons_self l rest) hp hn
        rw [this] at hns
        exact absurd hns (by simp)
      · simp [findDataRow, hq, hn, ih']
    · simp [findDataRow, hq, ih']

/-- Claim C10: the primary parser never selects a data row containing the
substring `Subject` or whose stripped form starts with `|---`; consequently
a response in which every pipe-containing line with at least 9 cells
contains `Subject` bypasses the primary tier and is handled by the fallback
parser. -/
theorem c10_subject_filter (resp orig : Str) :
    (∀ cells, findDataRow (pySplit ['\n'] resp) = some cells →
      ∃ l ∈ pySplit ['\n'] resp, cells = rowCells l ∧
        containsSeq "Subject".data l = false ∧
        pyStartsWith "|---".data (pyStrip l) = false) ∧
    ((∀ l ∈ pySplit ['\n'] resp, containsSeq ['|'] l = true →
        9 ≤ (rowCells l).length → containsSeq "Subject".data l = true) →
      parseAnalysisResponse resp orig = some (parseFallbackFormat resp orig)) := by
  constructor
  · intro cells hfind
    obtain ⟨l, hl, he, hq⟩ := findDataRow_mem _ _ hfind
    simp only [lineQualifies, Bool.and_eq_true, Bool.not_eq_true'] at hq
    exact ⟨l, hl, he, hq.2, hq.1.2⟩
  · intro h
    have := findDataRow_none_of_subject _ h
    simp [parseAnalysisResponse, this]

/-- Witness for C10: a response whose only pipe row carries `Subject`
inside a cell falls through to the fallback parser. -/
theorem c10_subject_filter_witness :
    parseAnalysisResponse
        "| The Subject | b | c | d | e | f | g | h | i | j |".data [] =
      some (parseFallbackFormat
        "| The Subject | b | c | d | e | f | g | h | i | j |".data []) :=
  (c10_subject_filter "| The Subject | b | c | d | e | f | g | h | i | j |".data []).2
    (by decide)

/-! ## Claim C7 -/

/-- The separator line as a `String`. -/
def sepStr : String := String.mk questionSeparator

/-- A document with two fully well-formed question blocks, both numbered 0. -/
def exDoc7 : Str :=
  (sepStr ++ "\n**QUESTION 0**\n\n**Q:** Why?\nA. a\nB. b\nC. c\nD. d\n\n**Correct Answer:** A. a\n\n**Explanation:** e\n"
    ++ sepStr ++ "\n**QUESTION 0**\n\n**Q:** How?\nA. a\nB. b\nC. c\nD. d\n\n**Correct Answer:** B. b\n\n**Explanation:** f\n"
    ++ sepStr).data

set_option maxRecDepth 10000

/-- Claim C7, counterexample: `parse_content` accepts `**QUESTION 0**`
markers, so a parsed record can carry question number 0 (not strictly
positive), and two records of one parse can share the same number. -/
theorem c7_counterexample :
    ((parseContent exDoc7).map Question.question_number = [0, 0]) ∧
    ¬ (∀ q ∈ parseContent exDoc7, 0 < q.question_number) ∧
    ¬ ((parseContent exDoc7).Pairwise fun a b => a.question_number ≠ b.question_number) := by
  refine ⟨by decide, ?_, ?_⟩
  · intro hall
    have hmap : (parseContent exDoc7).map Question.question_number = [0, 0] := by decide
    cases hp : parseContent exDoc7 with
    | nil => rw [hp] at hmap; exact absurd hmap (by simp)
    | cons q rest =>
      have hq := hall q (by rw [hp]; exact List.mem_cons_self q rest)
      rw [hp] at hmap
      simp only [List.map_cons, List.cons.injEq] at hmap
      omega
  · intro hpw
    have hmap : (parseContent exDoc7).map Question.question_number = [0, 0] := by decide
    cases hp : parseContent exDoc7 with
    | nil => rw [hp] at hmap; exact absurd hmap (by simp)
    | cons q rest =>
      cases rest with
      | nil => rw [hp] at hmap; exact absurd hmap (by simp)
      | cons q2 rest2 =>
        rw [hp] at hmap hpw
        simp only [List.map_cons, List.cons.injEq] at hmap
        have hne := (List.pairwise_cons.mp hpw).1 q2 (List.mem_cons_self q2 rest2)
        omega

theorem parseQuestionBlock_number (hdr : HeaderInfo) (b : Str) (q : Question)
    (h : parseQuestionBlock hdr b = some q) :
    searchMarker b = some q.question_number := by
  unfold parseQuestionBlock at h
  cases hm : searchMarker b with
  | none =>
    rw [hm] at h
    exact absurd h (by simp)
  | some n =>
    rw [hm] at h
    simp only at h
    by_cases h1 : (extractQuestionText b).isEmpty = true
    · rw [if_pos h1] at h
      exact absurd h (by simp)
    · rw [if_neg h1] at h
      by_cases h2 : (extractOptions b).length ≠ 4
      · rw [if_pos h2] at h
        exact absurd h (by simp)
      · rw [if_neg h2] at h
        cases hae : extractAnswerAndExplanation b with
        | none =>
          rw [hae] at h
          exact absurd h (by simp)
        | some p =>
          rw [hae] at h
          obtain ⟨ca, ex⟩ := p
          have he := Option.some_inj.mp h
          rw [← he]

/-- Claim C7, amended: every record's `question_number` is the value of the
first `**QUESTION n**` marker of the question block it was parsed from (a
natural number that can be 0 and can repeat across the records of one
parse). -/
theorem c7_amended (content : Str) (q : Question) (hq : q ∈ parseContent content) :
    ∃ b ∈ splitIntoQuestionBlocks content, searchMarker b = some q.question_number := by
  simp only [parseContent, List.mem_filterMap] at hq
  obtain ⟨b, hb, hpb⟩ := hq
  exact ⟨b, hb, parseQuestionBlock_number _ b q hpb⟩

/-- The first record of `exDoc7`'s parse. -/
def exQ7 : Question :=
  { subject := [], topic := [], subtopic := [], question_number := 0,
    question_text := "Why?".data,
    options := ["A. a".data, "B. b".data, "C. c".data, "D. d".data],
    correct_answer := "A. a".data, explanation := "e".data }

/-- Witness for C7's amended theorem at a concrete parsed record. -/
theorem c7_amended_witness :
    ∃ b ∈ splitIntoQuestionBlocks exDoc7, searchMarker b = some exQ7.question_number :=
  c7_amended exDoc7 exQ7 (by decide)

/-! ## Splitting and stripping lemmas -/

theorem pySplitFuel_congr (sep : Str) : ∀ (f1 f2 : Nat) (s : Str),
    s.length ≤ f1 → s.length ≤ f2 → pySplitFuel sep f1 s = pySplitFuel sep f2 s := by
  intro f1
  induction f1 with
  | zero =>
    intro f2 s h1 _
    have hs : s = [] := List.eq_nil_of_length_eq_zero (Nat.le_zero.mp h1)
    subst hs
    cases f2 <;> rfl
  | succ f1' ih =>
    intro f2 s h1 h2
    cases s with
    | nil => cases f2 <;> rfl
    | cons c cs =>
      cases f2 with
      | zero => simp at h2
      | succ f2' =>
        simp only [List.length_cons, Nat.succ_le_succ_iff] at h1 h2
        simp only [pySplitFuel]
        by_cases hcond : sep ≠ [] ∧ pyStartsWith sep (c :: cs) = true
        · rw [if_pos hcond, if_pos hcond]
          have hsep : 1 ≤ sep.length := List.length_pos.mpr hcond.1
          have hd : (List.drop sep.length (c :: cs)).length = cs.length + 1 - sep.length := by
            rw [List.length_drop]
            rfl
          congr 1
          apply ih
          · omega
          · omega
        · rw [if_neg hcond, if_neg hcond]
          rw [ih f2' cs h1 h2]

theorem pyStartsWith_head_ne (ch x : Char) (t u : Str) (hx : x ≠ ch) :
    pyStartsWith (ch :: t) (x :: u) = false := by
  simp only [pyStartsWith]
  rw [decide_eq_false (fun h : ch = x => hx h.symm)]
  rfl

theorem pySplit_append (sc : Char) (sep' : Str) : ∀ (a : Str), ∀ (b : Str),
    (∀ c ∈ a, c ≠ sc) →
    pySplit (sc :: sep') (a ++ (sc :: sep') ++ b) = a :: pySplit (sc :: sep') b := by
  intro a
  induction a with
  | nil =>
    intro b _
    show pySplitFuel (sc :: sep') (((sc :: sep') ++ b).length) ((sc :: (sep' ++ b))) = _
    simp only [List.cons_append, List.length_cons, pySplitFuel]
    rw [if_pos ⟨List.cons_ne_nil sc sep', pyStartsWith_self_append (sc :: sep') b⟩]
    have hdrop : List.drop (sep'.length + 1) (sc :: (sep' ++ b)) = b := by
      rw [List.drop_succ_cons]
      exact List.drop_left _ _
    rw [hdrop]
    congr 1
    apply pySplitFuel_congr
    · show List.length b ≤ (sep' ++ b).length
      rw [List.length_append]
      omega
    · omega
  | cons x a' ih =>
    intro b ha
    have hx : x ≠ sc := ha x (List.mem_cons_self x a')
    have ih' := ih b fun c hc => ha c (List.mem_cons_of_mem x hc)
    show pySplitFuel (sc :: sep')
        ((x :: (a' ++ (sc :: sep') ++ b)).length) (x :: (a' ++ (sc :: sep') ++ b)) = _
    simp only [List.length_cons, pySplitFuel]
    rw [if_neg (by simp [pyStartsWith_head_ne sc x _ _ hx])]
    have hr : pySplitFuel (sc :: sep') (a' ++ (sc :: sep') ++ b).length
        (a' ++ (sc :: sep') ++ b) = a' :: pySplit (sc :: sep') b := ih'
    rw [hr]

theorem pySplit_nosep (sc : Char) (sep' : Str) : ∀ (a : Str), (∀ c ∈ a, c ≠ sc) →
    pySplit (sc :: sep') a = [a] := by
  intro a
  induction a with
  | nil =>
    intro _
    rfl
  | cons x a' ih =>
    intro ha
    have hx : x ≠ sc := ha x (List.mem_cons_self x a')
    have ih' := ih fun c hc => ha c (List.mem_cons_of_mem x hc)
    show pySplitFuel (sc :: sep') ((x :: a').length) (x :: a') = [x :: a']
    simp only [List.length_cons, pySplitFuel]
    rw [if_neg (by simp [pyStartsWith_head_ne sc x _ _ hx])]
    have hr : pySplitFuel (sc :: sep') a'.length a' = [a'] := ih'
    rw [hr]

theorem pySplit_joinWith (c : Char) : ∀ (ls : List Str), ls ≠ [] →
    (∀ l ∈ ls, ∀ x ∈ l, x ≠ c) → pySplit [c] (joinWith c ls) = ls := by
  intro ls
  induction ls with
  | nil => intro h _; exact absurd rfl h
  | cons l rest ih =>
    intro _ hall
    cases rest with
    | nil =>
      show pySplit [c] l = [l]
      exact pySplit_nosep c [] l (hall l (List.mem_cons_self l []))
    | cons l2 rest2 =>
      have hjoin : joinWith c (l :: l2 :: rest2) = l ++ [c] ++ joinWith c (l2 :: rest2) := by
        simp [joinWith]
      rw [hjoin, pySplit_append c [] l (joinWith c (l2 :: rest2))
        (hall l (List.mem_cons_self l (l2 :: rest2)))]
      rw [ih (by simp) (fun x hx => hall x (List.mem_cons_of_mem l hx))]

theorem dropWhile_eq_self_of_head (p : Char → Bool) (t : Str)
    (h : ∀ ch, t.head? = some ch → p ch = false) : t.dropWhile p = t := by
  cases t with
  | nil => rfl
  | cons c cs => simp [List.dropWhile_cons, h c rfl]

theorem pyStrip_eq_self (s : Str)
    (hh : ∀ ch, s.head? = some ch → isPySpace ch = false)
    (hl : ∀ ch, s.getLast? = some ch → isPySpace ch = false) : pyStrip s = s := by
  unfold pyStrip lstrip
  rw [dropWhile_eq_self_of_head isPySpace s hh]
  rw [dropWhile_eq_self_of_head isPySpace s.reverse
    (fun ch hch => hl ch (by rwa [List.head?_reverse] at hch))]
  exact List.reverse_reverse s

theorem pyStrip_pad (w1 w2 : Char) (hw1 : isPySpace w1 = true) (hw2 : isPySpace w2 = true)
    (x : Str) (hx0 : x ≠ [])
    (hh : ∀ ch, x.head? = some ch → isPySpace ch = false)
    (hl : ∀ ch, x.getLast? = some ch → isPySpace ch = false) :
    pyStrip (w1 :: (x ++ [w2])) = x := by
  unfold pyStrip lstrip
  rw [List.dropWhile_cons, if_pos hw1]
  rw [dropWhile_eq_self_of_head isPySpace (x ++ [w2]) (by
    intro ch hch
    cases x with
    | nil => exact absurd rfl hx0
    | cons c cs =>
      simp only [List.cons_append, List.head?_cons, Option.some_inj] at hch
      exact hch ▸ hh c rfl)]
  rw [List.reverse_append, List.reverse_singleton, List.singleton_append,
    List.dropWhile_cons, if_pos hw2]
  rw [dropWhile_eq_self_of_head isPySpace x.reverse
    (fun ch hch => hl ch (by rwa [List.head?_reverse] at hch))]
  exact List.reverse_reverse x

/-! ## Claim C8 -/

/-- Modelled from the spec: the backend "echoing that exact record into a
table row" (§8) — a single pipe-delimited row `| c1 | c2 | ... | cn |`
holding the given cells. -/
def mkRow (cells : List Str) : Str :=
  '|' :: (cells.map (fun c => ' ' :: (c ++ [' ', '|']))).flatten

/-- The first character of a string is not whitespace (vacuous if empty). -/
def headOk (s : Str) : Bool :=
  match s with
  | [] => true
  | c :: _ => !(isPySpace c)

/-- The last character of a string is not whitespace (vacuous if empty). -/
def lastOk (s : Str) : Bool :=
  match s.getLast? with
  | none => true
  | some c => !(isPySpace c)

/-- A table cell that survives the cell-stripping of the data-row parser
unchanged: non-empty, no surrounding whitespace, and free of the pipe and
newline characters that delimit rows and lines. -/
def cellClean (s : Str) : Prop :=
  s ≠ [] ∧ headOk s = true ∧ lastOk s = true ∧ ∀ c ∈ s, c ≠ '|' ∧ c ≠ '\n'

instance (s : Str) : Decidable (cellClean s) := by
  unfold cellClean
  infer_instance

theorem cellClean_head (s : Str) (h : cellClean s) :
    ∀ ch, s.head? = some ch → isPySpace ch = false := by
  intro ch hch
  obtain ⟨h0, h1, _, _⟩ := h
  cases s with
  | nil => simp at hch
  | cons c cs =>
    simp only [List.head?_cons, Option.some_inj] at hch
    subst hch
    simpa [headOk] using h1

theorem cellClean_last (s : Str) (h : cellClean s) :
    ∀ ch, s.getLast? = some ch → isPySpace ch = false := by
  intro ch hch
  obtain ⟨h0, _, h2, _⟩ := h
  unfold lastOk at h2
  rw [hch] at h2
  simpa using h2

theorem mkRowTail_split (cells : List Str)
    (h : ∀ l ∈ cells, ∀ x ∈ l, x ≠ '|') :
    pySplit ['|'] ((cells.map (fun c => ' ' :: (c ++ [' ', '|']))).flatten) =
      cells.map (fun c => ' ' :: (c ++ [' '])) ++ [[]] := by
  induction cells with
  | nil => rfl
  | cons c rest ih =>
    have hc := h c (List.mem_cons_self c rest)
    have ih' := ih fun l hl => h l (List.mem_cons_of_mem c hl)
    simp only [List.map_cons, List.flatten_cons]
    have he : (' ' :: (c ++ [' ', '|'])) ++ (rest.map (fun c => ' ' :: (c ++ [' ', '|']))).flatten =
        (' ' :: (c ++ [' '])) ++ ['|'] ++ (rest.map (fun c => ' ' :: (c ++ [' ', '|']))).flatten := by
      simp
    rw [he, pySplit_append '|' [] (' ' :: (c ++ [' '])) _ (by
      intro x hx
      rcases List.mem_cons.mp hx with rfl | hx'
      · decide
      · rcases List.mem_append.mp hx' with hx'' | hx''
        · exact hc x hx''
        · simp only [List.mem_singleton] at hx''
          subst hx''
          decide)]
    rw [ih']
    simp

theorem pySplit_mkRow (cells : List Str)
    (h : ∀ l ∈ cells, ∀ x ∈ l, x ≠ '|') :
    pySplit ['|'] (mkRow cells) =
      [] :: (cells.map (fun c => ' ' :: (c ++ [' '])) ++ [[]]) := by
  have he : mkRow cells =
      [] ++ ['|'] ++ (cells.map (fun c => ' ' :: (c ++ [' ', '|']))).flatten := rfl
  rw [he, pySplit_append '|' [] [] _ (by intro x hx; simp at hx), mkRowTail_split cells h]

theorem rowCells_mkRow (cells : List Str) (hclean : ∀ l ∈ cells, cellClean l) :
    rowCells (mkRow cells) = cells := by
  unfold rowCells
  rw [pySplit_mkRow cells (fun l hl x hx => ((hclean l hl).2.2.2 x hx).1)]
  simp only [List.drop_succ_cons, List.drop_zero, List.dropLast_concat, List.map_map]
  have : ∀ c ∈ cells, (pyStrip ∘ fun c => ' ' :: (c ++ [' '])) c = id c := by
    intro c hcm
    have h := hclean c hcm
    simp only [Function.comp_apply, id_eq]
    exact pyStrip_pad ' ' ' ' rfl rfl c h.1 (cellClean_head c h) (cellClean_last c h)
  rw [List.map_congr_left this, List.map_id]

theorem padsFlatten_ends (cells : List Str) :
    (cells.map (fun c => ' ' :: (c ++ [' ', '|']))).flatten = [] ∨
    ∃ y, (cells.map (fun c => ' ' :: (c ++ [' ', '|']))).flatten = y ++ ['|'] := by
  induction cells with
  | nil => exact Or.inl rfl
  | cons c rest ih =>
    right
    simp only [List.map_cons, List.flatten_cons]
    rcases ih with h | ⟨y, h⟩
    · rw [h]
      refine ⟨' ' :: (c ++ [' ']), ?_⟩
      simp
    · rw [h]
      refine ⟨' ' :: (c ++ [' ', '|']) ++ y, ?_⟩
      simp

theorem mkRow_getLast (cells : List Str) : (mkRow cells).getLast? = some '|' := by
  unfold mkRow
  rcases padsFlatten_ends cells with h | ⟨y, h⟩
  · rw [h]
    rfl
  · rw [h]
    show (('|' :: y) ++ ['|']).getLast? = some '|'
    rw [List.getLast?_concat]

theorem pyStrip_mkRow (cells : List Str) : pyStrip (mkRow cells) = mkRow cells := by
  apply pyStrip_eq_self
  · intro ch hch
    have : (mkRow cells).head? = some '|' := rfl
    rw [this] at hch
    simp only [Option.some_inj] at hch
    subst hch
    rfl
  · intro ch hch
    rw [mkRow_getLast cells] at hch
    simp only [Option.some_inj] at hch
    subst hch
    rfl

theorem mkRow_mem (cells : List Str) (x : Char) (hx : x ∈ mkRow cells) :
    x = '|' ∨ x = ' ' ∨ ∃ c ∈ cells, x ∈ c := by
  unfold mkRow at hx
  rcases List.mem_cons.mp hx with rfl | hx'
  · exact Or.inl rfl
  · rw [List.mem_flatten] at hx'
    obtain ⟨l, hl, hxl⟩ := hx'
    rw [List.mem_map] at hl
    obtain ⟨c, hc, rfl⟩ := hl
    rcases List.mem_cons.mp hxl with rfl | hxl'
    · exact Or.inr (Or.inl rfl)
    · rcases List.mem_append.mp hxl' with h | h
      · exact Or.inr (Or.inr ⟨c, hc, h⟩)
      · rcases List.mem_cons.mp h with rfl | h'
        · exact Or.inr (Or.inl rfl)
        · simp only [List.mem_singleton] at h'
          exact Or.inl h'

theorem mkRow_no_newline (cells : List Str) (hclean : ∀ l ∈ cells, cellClean l) :
    ∀ x ∈ mkRow cells, x ≠ '\n' := by
  intro x hx
  rcases mkRow_mem cells x hx with rfl | rfl | ⟨c, hc, hxc⟩
  · decide
  · decide
  · exact ((hclean c hc).2.2.2 x hxc).2

theorem lineQualifies_mkRow (cells : List Str)
    (hsub : containsSeq "Subject".data (mkRow cells) = false) :
    lineQualifies (mkRow cells) = true := by
  unfold lineQualifies
  rw [pyStrip_mkRow, hsub]
  have h1 : containsSeq ['|'] (mkRow cells) = true := by
    unfold mkRow containsSeq
    simp [pyStartsWith]
  have h2 : pyStartsWith "|---".data (mkRow cells) = false := by
    unfold mkRow
    cases cells with
    | nil => rfl
    | cons c rest => rfl
  rw [h1, h2]
  rfl

theorem findDataRow_mkRow (cells : List Str) (hclean : ∀ l ∈ cells, cellClean l)
    (h9 : 9 ≤ cells.length)
    (hsub : containsSeq "Subject".data (mkRow cells) = false) :
    findDataRow [mkRow cells] = some cells := by
  have hrc := rowCells_mkRow cells hclean
  unfold findDataRow
  rw [lineQualifies_mkRow cells hsub]
  simp only [if_true, hrc, h9, if_pos]

/-- Claim C8, amended: if the backend echoes the record's fields into a
single pipe-delimited table row in schema order, the primary table parser
recovers subject, topic and subtopic exactly — provided each echoed cell is
non-empty, has no surrounding whitespace and contains no `|` or newline,
the three classification fields are at most 100 characters (the parser's
truncation bound), and the row does not contain the substring `Subject`
(which would make the row filter reject it). -/
theorem c8_roundtrip (q : Question) (r6 r7 r8 r9 r10 : Str) (backend : Str → Str)
    (hecho : backend (formatQuestionForAnalysis q) =
      mkRow [q.subject, q.topic, q.subtopic, q.question_text, q.explanation,
        r6, r7, r8, r9, r10])
    (hclean : ∀ cell ∈ [q.subject, q.topic, q.subtopic, q.question_text, q.explanation,
        r6, r7, r8, r9, r10], cellClean cell)
    (hlen1 : q.subject.length ≤ 100) (hlen2 : q.topic.length ≤ 100)
    (hlen3 : q.subtopic.length ≤ 100)
    (hsub : containsSeq "Subject".data
      (mkRow [q.subject, q.topic, q.subtopic, q.question_text, q.explanation,
        r6, r7, r8, r9, r10]) = false) :
    ∃ r, parseAnalysisResponse (backend (formatQuestionForAnalysis q))
        (formatQuestionForAnalysis q) = some r ∧
      r.subject = q.subject ∧ r.topic = q.topic ∧ r.subtopic = q.subtopic := by
  rw [hecho]
  have hlines : pySplit ['\n']
      (mkRow [q.subject, q.topic, q.subtopic, q.question_text, q.explanation,
        r6, r7, r8, r9, r10]) =
      [mkRow [q.subject, q.topic, q.subtopic, q.question_text, q.explanation,
        r6, r7, r8, r9, r10]] :=
    pySplit_nosep '\n' [] _ (mkRow_no_newline _ hclean)
  have hfind := findDataRow_mkRow
    [q.subject, q.topic, q.subtopic, q.question_text, q.explanation, r6, r7, r8, r9, r10]
    hclean (by omega : (9:Nat) ≤ 10) hsub
  unfold parseAnalysisResponse
  rw [hlines, hfind]
  refine ⟨_, rfl, ?_, ?_, ?_⟩
  · show List.take 100 q.subject = q.subject
    exact List.take_of_length_le hlen1
  · show List.take 100 q.topic = q.topic
    exact List.take_of_length_le hlen2
  · show List.take 100 q.subtopic = q.subtopic
    exact List.take_of_length_le hlen3

/-- A record whose subject is literally `Subject`. -/
def exQ8 : Question :=
  { subject := "Subject".data, topic := "T".data, subtopic := "S".data,
    question_number := 1, question_text := "Q".data,
    options := ["A. x".data, "B. y".data, "C. z".data, "D. w".data],
    correct_answer := "A. x".data, explanation := "E".data }

/-- Claim C8, counterexample: for a record whose subject contains the
substring `Subject`, the echoed table row is rejected by the primary
parser's row filter and the fallback result's subject differs from the
record's subject — the round trip does not hold for every record. -/
theorem c8_counterexample :
    (parseAnalysisResponse
        (mkRow [exQ8.subject, exQ8.topic, exQ8.subtopic, exQ8.question_text,
          exQ8.explanation, "9".data, "d".data, "a".data, "r".data, "i".data])
        (formatQuestionForAnalysis exQ8)).map AnalysisResult.subject ≠
      some exQ8.subject := by
  decide

/-- Witness for C8's round trip at a concrete clean record. -/
theorem c8_roundtrip_witness :
    ∃ r, parseAnalysisResponse
        ((fun _ => mkRow ["History".data, "Ancient".data, "Rome".data, "Q".data, "E".data,
          "9".data, "d".data, "a".data, "r".data, "i".data])
          (formatQuestionForAnalysis
            { subject := "History".data, topic := "Ancient".data, subtopic := "Rome".data,
              question_number := 1, question_text := "Q".data,
              options := ["A. x".data, "B. y".data, "C. z".data, "D. w".data],
              correct_answer := "A. x".data, explanation := "E".data }))
        (formatQuestionForAnalysis
          { subject := "History".data, topic := "Ancient".data, subtopic := "Rome".data,
            question_number := 1, question_text := "Q".data,
            options := ["A. x".data, "B. y".data, "C. z".data, "D. w".data],
            correct_answer := "A. x".data, explanation := "E".data }) = some r ∧
      r.subject = "History".data ∧ r.topic = "Ancient".data ∧ r.subtopic = "Rome".data :=
  c8_roundtrip
    { subject := "History".data, topic := "Ancient".data, subtopic := "Rome".data,
      question_number := 1, question_text := "Q".data,
      options := ["A. x".data, "B. y".data, "C. z".data, "D. w".data],
      correct_answer := "A. x".data, explanation := "E".data }
    "9".data "d".data "a".data "r".data "i".data
    (fun _ => mkRow ["History".data, "Ancient".data, "Rome".data, "Q".data, "E".data,
      "9".data, "d".data, "a".data, "r".data, "i".data])
    rfl (by decide) (by decide) (by decide) (by decide) (by decide)

/-! ## Claim C1: rendering well-formed documents -/

theorem getLastAppend (l1 l2 : Str) (x : Char) (h : l2.getLast? = some x) :
    (l1 ++ l2).getLast? = some x := by
  rw [List.getLast?_append, h]
  rfl

theorem pyReplaceFuel_congr (pat rep : Str) : ∀ (f1 f2 : Nat) (s : Str),
    s.length ≤ f1 → s.length ≤ f2 → pyReplaceFuel pat rep f1 s = pyReplaceFuel pat rep f2 s := by
  intro f1
  induction f1 with
  | zero =>
    intro f2 s h1 _
    have hs : s = [] := List.eq_nil_of_length_eq_zero (Nat.le_zero.mp h1)
    subst hs
    cases f2 <;> rfl
  | succ f1' ih =>
    intro f2 s h1 h2
    cases s with
    | nil => cases f2 <;> rfl
    | cons c cs =>
      cases f2 with
      | zero => simp at h2
      | succ f2' =>
        simp only [List.length_cons, Nat.succ_le_succ_iff] at h1 h2
        simp only [pyReplaceFuel]
        by_cases hcond : pat ≠ [] ∧ pyStartsWith pat (c :: cs) = true
        · rw [if_pos hcond, if_pos hcond]
          have hsep : 1 ≤ pat.length := List.length_pos.mpr hcond.1
          congr 1
          apply ih
          · rw [List.length_drop]
            simp only [List.length_cons]
            omega
          · rw [List.length_drop]
            simp only [List.length_cons]
            omega
        · rw [if_neg hcond, if_neg hcond]
          rw [ih f2' cs h1 h2]

theorem pyReplace_noocc (p0 : Char) (pat' rep : Str) : ∀ (s : Str),
    (∀ c ∈ s, c ≠ p0) → pyReplace (p0 :: pat') rep s = s := by
  intro s
  induction s with
  | nil => intro _; rfl
  | cons c cs ih =>
    intro h
    have hc : c ≠ p0 := h c (List.mem_cons_self c cs)
    have ih' := ih fun x hx => h x (List.mem_cons_of_mem c hx)
    show pyReplaceFuel (p0 :: pat') rep ((c :: cs).length) (c :: cs) = c :: cs
    simp only [List.length_cons, pyReplaceFuel]
    rw [if_neg (by simp [pyStartsWith_head_ne p0 c _ _ hc])]
    have hr : pyReplaceFuel (p0 :: pat') rep cs.length cs = cs := ih'
    rw [hr]

theorem pyReplace_strip_all (p0 : Char) (pat' : Str) (s : Str)
    (hs : ∀ c ∈ s, c ≠ p0) :
    pyReplace (p0 :: pat') [] ((p0 :: pat') ++ s) = s := by
  show pyReplaceFuel (p0 :: pat') [] (((p0 :: pat') ++ s).length) (p0 :: (pat' ++ s)) = s
  simp only [List.cons_append, List.length_cons, pyReplaceFuel]
  rw [if_pos ⟨List.cons_ne_nil p0 pat', pyStartsWith_self_append (p0 :: pat') s⟩]
  have hdrop : List.drop (pat'.length + 1) (p0 :: (pat' ++ s)) = s := by
    rw [List.drop_succ_cons]
    exact List.drop_left _ _
  rw [hdrop]
  simp only [List.nil_append]
  have h1 : pyReplaceFuel (p0 :: pat') [] s.length s = s := pyReplace_noocc p0 pat' [] s hs
  calc pyReplaceFuel (p0 :: pat') [] (pat' ++ s).length s
      = pyReplaceFuel (p0 :: pat') [] s.length s := by
        apply pyReplaceFuel_congr
        · rw [List.length_append]
          omega
        · omega
    _ = s := h1

theorem pyStrip_lpad (w : Char) (hw : isPySpace w = true) (x : Str)
    (hh : ∀ ch, x.head? = some ch → isPySpace ch = false)
    (hl : ∀ ch, x.getLast? = some ch → isPySpace ch = false) :
    pyStrip (w :: x) = x := by
  unfold pyStrip lstrip
  rw [List.dropWhile_cons, if_pos hw, dropWhile_eq_self_of_head isPySpace x hh]
  rw [dropWhile_eq_self_of_head isPySpace x.reverse
    (fun ch hch => hl ch (by rwa [List.head?_reverse] at hch))]
  exact List.reverse_reverse x

theorem searchWith_eq_some_of_head (f : Str → Option α) (s : Str) (v : α)
    (h : f s = some v) : searchWith f s = some v := by
  cases s with
  | nil => exact h
  | cons c cs => simp [searchWith, h]

theorem searchWith_isSome_append (f : Str → Option α) : ∀ (a t : Str),
    (f t).isSome = true → (searchWith f (a ++ t)).isSome = true := by
  intro a
  induction a with
  | nil =>
    intro t h
    cases t with
    | nil => exact h
    | cons c cs =>
      simp only [List.nil_append, searchWith]
      cases hft : f (c :: cs) with
      | none => rw [hft] at h; simp at h
      | some v => rfl
  | cons c a' ih =>
    intro t h
    simp only [List.cons_append, searchWith]
    cases hfc : f (c :: (a' ++ t)) with
    | none => exact ih t h
    | some v => rfl

theorem containsSeq_of_startsWith (pat s : Str) (h : pyStartsWith pat s = true) :
    containsSeq pat s = true := by
  cases s with
  | nil => exact h
  | cons c cs => simp [containsSeq, h]

theorem containsSeq_eq_false_of_ne (p0 : Char) (pat' : Str) : ∀ (s : Str),
    (∀ c ∈ s, c ≠ p0) → containsSeq (p0 :: pat') s = false := by
  intro s
  induction s with
  | nil => intro _; rfl
  | cons c cs ih =>
    intro h
    have hc : c ≠ p0 := h c (List.mem_cons_self c cs)
    have ih' := ih fun x hx => h x (List.mem_cons_of_mem c hx)
    simp [containsSeq, pyStartsWith_head_ne p0 c _ _ hc, ih']

theorem joinWith_mem (c : Char) : ∀ (ls : List Str) (x : Char), x ∈ joinWith c ls →
    x = c ∨ ∃ l ∈ ls, x ∈ l := by
  intro ls
  induction ls with
  | nil => intro x hx; simp [joinWith] at hx
  | cons l rest ih =>
    intro x hx
    cases rest with
    | nil =>
      simp only [joinWith] at hx
      exact Or.inr ⟨l, List.mem_cons_self l [], hx⟩
    | cons l2 rest2 =>
      simp only [joinWith] at hx
      rcases List.mem_append.mp hx with h | h
      · exact Or.inr ⟨l, List.mem_cons_self l (l2 :: rest2), h⟩
      · rcases List.mem_cons.mp h with rfl | h'
        · exact Or.inl rfl
        · rcases ih x h' with h'' | ⟨l', hl', hxl'⟩
          · exact Or.inl h''
          · exact Or.inr ⟨l', List.mem_cons_of_mem l hl', hxl'⟩

theorem isDigit_not_space (c : Char) (h : c.isDigit = true) : isPySpace c = false := by
  unfold isPySpace
  simp only [Bool.or_eq_false_iff, decide_eq_false_iff_not]
  refine ⟨⟨⟨⟨⟨?_, ?_⟩, ?_⟩, ?_⟩, ?_⟩, ?_⟩ <;>
    · rintro rfl
      exact absurd h (by decide)

theorem mem_pyStrip (s : Str) (x : Char) (hx : x ∈ pyStrip s) : x ∈ s := by
  unfold pyStrip lstrip at hx
  rw [List.mem_reverse] at hx
  have h1 := (List.dropWhile_sublist _).mem hx
  rw [List.mem_reverse] at h1
  exact (List.dropWhile_sublist _).mem h1

/-- The abstract content of one well-formed question block, as described by
§6 of the spec: a `**QUESTION n**` marker (digit string), the question
prose, four options, the correct answer (letter plus text) and the
explanation. -/
structure BlockData where
  numStr : Str
  qtext : Str
  optA : Str
  optB : Str
  optC : Str
  optD : Str
  ansLetter : Char
  ansText : Str
  expl : Str

/-- A text field of a well-formed block: non-empty, no surrounding
whitespace, and free of newlines (fields are single-line), of `*` (so the
block markers are unambiguous) and of `=` (so the field cannot spell the
block separator). -/
def cleanField (s : Str) : Prop :=
  s ≠ [] ∧ headOk s = true ∧ lastOk s = true ∧
    ∀ c ∈ s, c ≠ '\n' ∧ c ≠ '*' ∧ c ≠ '='

instance (s : Str) : Decidable (cleanField s) := by
  unfold cleanField
  infer_instance

/-- Well-formedness of a block's content. -/
def CleanBlock (bd : BlockData) : Prop :=
  (bd.numStr ≠ [] ∧ ∀ c ∈ bd.numStr, c.isDigit = true) ∧
  cleanField bd.qtext ∧
  cleanField bd.optA ∧ cleanField bd.optB ∧ cleanField bd.optC ∧ cleanField bd.optD ∧
  (bd.ansLetter = 'A' ∨ bd.ansLetter = 'B' ∨ bd.ansLetter = 'C' ∨ bd.ansLetter = 'D') ∧
  cleanField bd.ansText ∧
  cleanField bd.expl

instance (bd : BlockData) : Decidable (CleanBlock bd) := by
  unfold CleanBlock
  infer_instance

/-- The lines of a rendered question block (§6 input format). -/
def blockLines (bd : BlockData) : List Str :=
  [ "**QUESTION ".data ++ bd.numStr ++ "**".data,
    [],
    "**Q:** ".data ++ bd.qtext,
    "A. ".data ++ bd.optA,
    "B. ".data ++ bd.optB,
    "C. ".data ++ bd.optC,
    "D. ".data ++ bd.optD,
    [],
    "**Correct Answer:** ".data ++ (bd.ansLetter :: '.' :: ' ' :: bd.ansText),
    [],
    "**Explanation:** ".data ++ bd.expl ]

/-- A rendered question block: its lines joined by newlines. -/
def renderBlock (bd : BlockData) : Str := joinWith '\n' (blockLines bd)

/-- A rendered input document: a header part followed by the separator-
delimited rendered blocks. -/
def renderDoc (hd : Str) (bds : List BlockData) : Str :=
  hd ++ (bds.map (fun b => questionSeparator ++ ('\n' :: (renderBlock b ++ ['\n'])))).flatten

theorem renderBlock_flat (bd : BlockData) : renderBlock bd =
    "**QUESTION".data ++ ((' ' :: bd.numStr ++ ("**".data ++ ("\n\n**Q:** ".data ++ (bd.qtext ++ ("\nA. ".data ++ (bd.optA ++ ("\nB. ".data ++ (bd.optB ++ ("\nC. ".data ++ (bd.optC ++ ("\nD. ".data ++ (bd.optD ++ ("\n\n".data ++ ("**Correct Answer:**".data ++ ((' ' :: bd.ansLetter :: '.' :: ' ' :: bd.ansText ++ ("\n\n".data ++ ("**Explanation:**".data ++ ((' ' :: bd.expl))))))))))))))))))))) := by
  simp [renderBlock, blockLines, joinWith]

theorem cleanField_head (s : Str) (h : cleanField s) :
    ∀ ch, s.head? = some ch → isPySpace ch = false := by
  intro ch hch
  obtain ⟨h0, h1, _, _⟩ := h
  cases s with
  | nil => simp at hch
  | cons c cs =>
    simp only [List.head?_cons, Option.some_inj] at hch
    subst hch
    simpa [headOk] using h1

theorem cleanField_last (s : Str) (h : cleanField s) :
    ∀ ch, s.getLast? = some ch → isPySpace ch = false := by
  intro ch hch
  obtain ⟨h0, _, h2, _⟩ := h
  unfold lastOk at h2
  rw [hch] at h2
  simpa using h2

theorem cleanField_getLast_exists (s : Str) (h : cleanField s) :
    ∃ y, s.getLast? = some y ∧ isPySpace y = false := by
  cases hgl : s.getLast? with
  | none => exact absurd (List.getLast?_eq_none_iff.mp hgl) h.1
  | some y => exact ⟨y, rfl, cleanField_last s h y hgl⟩

theorem headNotSpace_of_eq (s : Str) (c : Char) (hs : s.head? = some c)
    (hc : isPySpace c = false) : ∀ ch, s.head? = some ch → isPySpace ch = false := by
  intro ch hch
  rw [hs] at hch
  injection hch with h
  rwa [← h]

theorem lastNotSpace_of_eq (s : Str) (c : Char) (hs : s.getLast? = some c)
    (hc : isPySpace c = false) : ∀ ch, s.getLast? = some ch → isPySpace ch = false := by
  intro ch hch
  rw [hs] at hch
  injection hch with h
  rwa [← h]

theorem pyStrip_preField (pre field : Str) (c0 : Char)
    (hc0 : (pre ++ field).head? = some c0) (hc0s : isPySpace c0 = false)
    (hf : cleanField field) : pyStrip (pre ++ field) = pre ++ field := by
  obtain ⟨y, hy, hys⟩ := cleanField_getLast_exists field hf
  exact pyStrip_eq_self _ (headNotSpace_of_eq _ c0 hc0 hc0s)
    (lastNotSpace_of_eq _ y (getLastAppend pre field y hy) hys)

/-- The rendered `**Explanation:**` line. -/
def explPart (bd : BlockData) : Str := "**Explanation:**".data ++ (' ' :: bd.expl)

/-- The rendered text from the `**Correct Answer:**` marker onward. -/
def answerPart (bd : BlockData) : Str :=
  "**Correct Answer:**".data ++
    (' ' :: bd.ansLetter :: '.' :: ' ' :: (bd.ansText ++ ("\n\n".data ++ explPart bd)))

/-- The rendered text following the question marker's closing `**`. -/
def blockTail1 (bd : BlockData) : Str :=
  "\n\n**Q:** ".data ++ (bd.qtext ++ ("\nA. ".data ++ (bd.optA ++ ("\nB. ".data ++
    (bd.optB ++ ("\nC. ".data ++ (bd.optC ++ ("\nD. ".data ++ (bd.optD ++
    ("\n\n".data ++ answerPart bd))))))))))

theorem renderBlock_eq_marker (bd : BlockData) : renderBlock bd =
    "**QUESTION".data ++ (' ' :: (bd.numStr ++ ("**".data ++ blockTail1 bd))) := by
  simp [renderBlock, blockLines, joinWith, blockTail1, answerPart, explPart]

theorem renderBlock_eq_answer (bd : BlockData) : renderBlock bd =
    ("**QUESTION ".data ++ (bd.numStr ++ ("**\n\n**Q:** ".data ++ (bd.qtext ++
      ("\nA. ".data ++ (bd.optA ++ ("\nB. ".data ++ (bd.optB ++ ("\nC. ".data ++
      (bd.optC ++ ("\nD. ".data ++ (bd.optD ++ "\n\n".data)))))))))))) ++
      answerPart bd := by
  simp [renderBlock, blockLines, joinWith, answerPart, explPart]

theorem renderBlock_eq_expl (bd : BlockData) : renderBlock bd =
    ("**QUESTION ".data ++ (bd.numStr ++ ("**\n\n**Q:** ".data ++ (bd.qtext ++
      ("\nA. ".data ++ (bd.optA ++ ("\nB. ".data ++ (bd.optB ++ ("\nC. ".data ++
      (bd.optC ++ ("\nD. ".data ++ (bd.optD ++ ("\n\n**Correct Answer:** ".data ++
      (bd.ansLetter :: '.' :: ' ' :: (bd.ansText ++ "\n\n".data))))))))))))))) ++
      explPart bd := by
  simp [renderBlock, blockLines, joinWith, explPart]

theorem markerTry_flat (ns tail : Str) (hn0 : ns ≠ [])
    (hnd : ∀ c ∈ ns, c.isDigit = true) :
    markerTry ("**QUESTION".data ++ (' ' :: (ns ++ ("**".data ++ tail)))) =
      some (digitsVal ns) := by
  cases ns with
  | nil => exact absurd rfl hn0
  | cons d ds =>
    have hd := hnd d (List.mem_cons_self d ds)
    simp only [markerTry]
    rw [if_pos (pyStartsWith_self_append _ _)]
    have hdrop : ("**QUESTION".data ++ (' ' :: ((d :: ds) ++ ("**".data ++ tail)))).drop 10 =
        ' ' :: ((d :: ds) ++ ("**".data ++ tail)) := List.drop_left "**QUESTION".data _
    rw [hdrop]
    rw [List.takeWhile_cons]
    rw [if_pos (by rfl : isPySpace ' ' = true)]
    rw [List.dropWhile_cons]
    rw [if_pos (by rfl : isPySpace ' ' = true)]
    have hdw : ((d :: ds) ++ ("**".data ++ tail)).dropWhile isPySpace =
        (d :: ds) ++ ("**".data ++ tail) :=
      dropWhile_eq_self_of_head isPySpace _ (by
        intro ch hch
        simp only [List.cons_append, List.head?_cons, Option.some_inj] at hch
        subst hch
        exact isDigit_not_space d hd)
    rw [hdw]
    have htw : ((d :: ds) ++ ("**".data ++ tail)).takeWhile Char.isDigit = d :: ds := by
      rw [takeWhileAppendAll Char.isDigit (d :: ds) _ hnd]
      simp
    rw [htw]
    simp only [List.isEmpty_cons, Bool.false_eq_true, if_false]
    have hdrop2 : ((d :: ds) ++ ("**".data ++ tail)).drop (d :: ds).length =
        "**".data ++ tail := List.drop_left (d :: ds) _
    rw [hdrop2]
    rw [if_pos (pyStartsWith_self_append _ _)]

theorem searchMarker_render (bd : BlockData) (hn0 : bd.numStr ≠ [])
    (hnd : ∀ c ∈ bd.numStr, c.isDigit = true) :
    searchMarker (renderBlock bd) = some (digitsVal bd.numStr) := by
  unfold searchMarker
  rw [renderBlock_eq_marker bd]
  exact searchWith_eq_some_of_head _ _ _ (markerTry_flat bd.numStr (blockTail1 bd) hn0 hnd)

theorem no_nl_append (u v : Str) (hu : ∀ x ∈ u, x ≠ '\n') (hv : ∀ x ∈ v, x ≠ '\n') :
    ∀ x ∈ u ++ v, x ≠ '\n' := by
  intro x hx
  rcases List.mem_append.mp hx with h | h
  · exact hu x h
  · exact hv x h

theorem cleanField_no_nl (s : Str) (h : cleanField s) : ∀ x ∈ s, x ≠ '\n' :=
  fun x hx => (h.2.2.2 x hx).1

theorem blockLines_no_nl (bd : BlockData) (hb : CleanBlock bd) :
    ∀ l ∈ blockLines bd, ∀ x ∈ l, x ≠ '\n' := by
  obtain ⟨⟨hn0, hnd⟩, hqt, hA, hB, hC, hD, hL, hAns, hExp⟩ := hb
  have hdig : ∀ x ∈ bd.numStr, x ≠ '\n' := by
    intro x hx
    rintro rfl
    exact absurd (hnd _ hx) (by decide)
  intro l hl
  simp only [blockLines, List.mem_cons, List.not_mem_nil, or_false] at hl
  rcases hl with rfl | rfl | rfl | rfl | rfl | rfl | rfl | rfl | rfl | rfl | rfl
  · exact no_nl_append _ _ (no_nl_append _ _ (by decide) hdig) (by decide)
  · intro x hx
    simp at hx
  · exact no_nl_append _ _ (by decide) (cleanField_no_nl _ hqt)
  · exact no_nl_append _ _ (by decide) (cleanField_no_nl _ hA)
  · exact no_nl_append _ _ (by decide) (cleanField_no_nl _ hB)
  · exact no_nl_append _ _ (by decide) (cleanField_no_nl _ hC)
  · exact no_nl_append _ _ (by decide) (cleanField_no_nl _ hD)
  · intro x hx
    simp at hx
  · intro x hx
    rcases List.mem_append.mp hx with h | h
    · exact (by decide : ∀ y ∈ "**Correct Answer:** ".data, y ≠ '\n') x h
    · rcases List.mem_cons.mp h with rfl | h'
      · rcases hL with hE | hE | hE | hE <;> rw [hE] <;> decide
      · rcases List.mem_cons.mp h' with rfl | h''
        · decide
        · rcases List.mem_cons.mp h'' with rfl | h'''
          · decide
          · exact cleanField_no_nl _ hAns x h'''
  · intro x hx
    simp at hx
  · exact no_nl_append _ _ (by decide) (cleanField_no_nl _ hExp)

theorem pySplit_renderBlock (bd : BlockData) (hb : CleanBlock bd) :
    pySplit ['\n'] (renderBlock bd) = blockLines bd :=
  pySplit_joinWith '\n' (blockLines bd) (by simp [blockLines]) (blockLines_no_nl bd hb)

theorem qloop_cons (line : Str) (rest : List Str) (inq : Bool) (acc : List Str) :
    extractQLoop (line :: rest) inq acc =
    if pyStartsWith "**Q:**".data (pyStrip line) = true then
      extractQLoop rest true (acc ++ [pyStrip (pyReplace "**Q:**".data [] (pyStrip line))])
    else if (inq && optStart (pyStrip line)) = true then acc
    else if (inq && !(pyStrip line).isEmpty) = true then
      extractQLoop rest inq (acc ++ [pyStrip line])
    else extractQLoop rest inq acc := rfl

theorem qloop_skip (line : Str) (rest : List Str) (acc : List Str)
    (h : pyStartsWith "**Q:**".data (pyStrip line) = false) :
    extractQLoop (line :: rest) false acc = extractQLoop rest false acc := by
  rw [qloop_cons, if_neg (by rw [h]; exact Bool.false_ne_true), if_neg (by simp),
    if_neg (by simp)]

theorem qloop_enter (line : Str) (rest : List Str) (acc : List Str)
    (h : pyStartsWith "**Q:**".data (pyStrip line) = true) :
    extractQLoop (line :: rest) false acc =
      extractQLoop rest true (acc ++ [pyStrip (pyReplace "**Q:**".data [] (pyStrip line))]) := by
  rw [qloop_cons, if_pos h]

theorem qloop_break (line : Str) (rest : List Str) (acc : List Str)
    (h1 : pyStartsWith "**Q:**".data (pyStrip line) = false)
    (h2 : optStart (pyStrip line) = true) :
    extractQLoop (line :: rest) true acc = acc := by
  rw [qloop_cons, if_neg (by rw [h1]; exact Bool.false_ne_true), if_pos (by rw [h2]; rfl)]

theorem extractQText_render (bd : BlockData) (hb : CleanBlock bd) :
    extractQuestionText (renderBlock bd) = bd.qtext := by
  have hlines := pySplit_renderBlock bd hb
  obtain ⟨⟨hn0, hnd⟩, hqt, hA, hB, hC, hD, hL, hAns, hExp⟩ := hb
  have s1 : pyStrip ("**QUESTION ".data ++ bd.numStr ++ "**".data) =
      "**QUESTION ".data ++ bd.numStr ++ "**".data :=
    pyStrip_eq_self _ (headNotSpace_of_eq _ '*' rfl rfl)
      (lastNotSpace_of_eq _ '*' (getLastAppend _ "**".data '*' rfl) rfl)
  have s3 : pyStrip ("**Q:** ".data ++ bd.qtext) = "**Q:** ".data ++ bd.qtext :=
    pyStrip_preField "**Q:** ".data bd.qtext '*' rfl rfl hqt
  have s4 : pyStrip ("A. ".data ++ bd.optA) = "A. ".data ++ bd.optA :=
    pyStrip_preField "A. ".data bd.optA 'A' rfl rfl hA
  have c1 : pyStartsWith "**Q:**".data ("**QUESTION ".data ++ bd.numStr ++ "**".data) =
      false := rfl
  have c3 : pyStartsWith "**Q:**".data ("**Q:** ".data ++ bd.qtext) = true := rfl
  have c4 : pyStartsWith "**Q:**".data ("A. ".data ++ bd.optA) = false := rfl
  have o4 : optStart ("A. ".data ++ bd.optA) = true := rfl
  have hrep : pyReplace "**Q:**".data [] ("**Q:** ".data ++ bd.qtext) = ' ' :: bd.qtext :=
    pyReplace_strip_all '*' "*Q:**".data (' ' :: bd.qtext) (by
      intro c hc
      rcases List.mem_cons.mp hc with rfl | h
      · decide
      · exact (hqt.2.2.2 c h).2.1)
  have hsl : pyStrip (' ' :: bd.qtext) = bd.qtext :=
    pyStrip_lpad ' ' rfl bd.qtext (cleanField_head _ hqt) (cleanField_last _ hqt)
  unfold extractQuestionText
  rw [hlines]
  simp only [blockLines]
  rw [qloop_skip _ _ _ (by rw [s1]; exact c1)]
  rw [qloop_skip _ _ _ (by exact c1 ▸ rfl)]
  rw [qloop_enter _ _ _ (by rw [s3]; exact c3)]
  rw [qloop_break _ _ _ (by rw [s4]; exact c4) (by rw [s4]; exact o4)]
  rw [s3, hrep, hsl]
  show pyStrip bd.qtext = bd.qtext
  exact pyStrip_eq_self _ (cleanField_head _ hqt) (cleanField_last _ hqt)

theorem headAppend (l1 l2 : Str) (c : Char) (h : l1.head? = some c) :
    (l1 ++ l2).head? = some c := by
  cases l1 with
  | nil => simp at h
  | cons x xs =>
    simp only [List.head?_cons, Option.some_inj] at h
    simp [h]

theorem wsStarNonNl_isSome_pad (rest : Str) (c : Char) (hh : rest.head? = some c)
    (hcs : isPySpace c = false) : ∃ g, wsStarNonNl (' ' :: rest) = some g := by
  unfold wsStarNonNl
  rw [List.dropWhile_cons, if_pos (by rfl : isPySpace ' ' = true),
    dropWhile_eq_self_of_head isPySpace rest (headNotSpace_of_eq rest c hh hcs)]
  cases rest with
  | nil => simp at hh
  | cons a t => exact ⟨_, rfl⟩

theorem answerTry_some (L : Char) (rest : Str)
    (hL : (L = 'A' || L = 'B' || L = 'C' || L = 'D') = true)
    (hLs : isPySpace L = false) (c : Char) (hh : rest.head? = some c)
    (hcs : isPySpace c = false) :
    ∃ g, answerTry ("**Correct Answer:**".data ++ (' ' :: L :: '.' :: ' ' :: rest)) =
      some g := by
  obtain ⟨g, hg⟩ := wsStarNonNl_isSome_pad rest c hh hcs
  unfold answerTry
  rw [if_pos (pyStartsWith_self_append _ _)]
  rw [show ("**Correct Answer:**".data ++ (' ' :: L :: '.' :: ' ' :: rest)).drop 19 =
    ' ' :: L :: '.' :: ' ' :: rest from List.drop_left "**Correct Answer:**".data _]
  rw [List.dropWhile_cons, if_pos (by rfl : isPySpace ' ' = true)]
  rw [List.dropWhile_cons, if_neg (by rw [hLs]; exact Bool.false_ne_true)]
  simp only []
  rw [hL]
  rw [if_pos (by rfl)]
  rw [hg]
  exact ⟨_, rfl⟩

theorem searchAnswer_isSome (bd : BlockData) (hb : CleanBlock bd) :
    (searchWith answerTry (renderBlock bd)).isSome = true := by
  obtain ⟨⟨hn0, hnd⟩, hqt, hA, hB, hC, hD, hL, hAns, hExp⟩ := hb
  rw [renderBlock_eq_answer bd]
  apply searchWith_isSome_append
  obtain ⟨a0, ha0, ha0s⟩ : ∃ y, bd.ansText.head? = some y ∧ isPySpace y = false := by
    cases hat : bd.ansText with
    | nil => exact absurd hat hAns.1
    | cons y ys => exact ⟨y, rfl, cleanField_head _ hAns y (by simp [hat])⟩
  have hLb : (bd.ansLetter = 'A' || bd.ansLetter = 'B' || bd.ansLetter = 'C' ||
      bd.ansLetter = 'D') = true := by
    rcases hL with hE | hE | hE | hE <;> rw [hE] <;> rfl
  have hLs : isPySpace bd.ansLetter = false := by
    rcases hL with hE | hE | hE | hE <;> rw [hE] <;> rfl
  obtain ⟨g, hg⟩ := answerTry_some bd.ansLetter
    (bd.ansText ++ ("\n\n".data ++ explPart bd)) hLb hLs a0
    (headAppend _ _ a0 ha0) ha0s
  unfold answerPart
  rw [hg]
  rfl

theorem searchExpl_isSome (bd : BlockData) (hb : CleanBlock bd) :
    (searchWith explTry (renderBlock bd)).isSome = true := by
  rw [renderBlock_eq_expl bd]
  apply searchWith_isSome_append
  unfold explPart explTry
  rw [if_pos (pyStartsWith_self_append _ _)]
  rfl

theorem extractOptions_render (bd : BlockData) (hb : CleanBlock bd) :
    extractOptions (renderBlock bd) =
      ['A' :: '.' :: ' ' :: bd.optA, 'B' :: '.' :: ' ' :: bd.optB,
        'C' :: '.' :: ' ' :: bd.optC, 'D' :: '.' :: ' ' :: bd.optD] := by
  have hlines := pySplit_renderBlock bd hb
  obtain ⟨⟨hn0, hnd⟩, hqt, hA, hB, hC, hD, hL, hAns, hExp⟩ := hb
  have s1 : pyStrip ("**QUESTION ".data ++ bd.numStr ++ "**".data) =
      "**QUESTION ".data ++ bd.numStr ++ "**".data :=
    pyStrip_eq_self _ (headNotSpace_of_eq _ '*' rfl rfl)
      (lastNotSpace_of_eq _ '*' (getLastAppend _ "**".data '*' rfl) rfl)
  have s3 : pyStrip ("**Q:** ".data ++ bd.qtext) = "**Q:** ".data ++ bd.qtext :=
    pyStrip_preField "**Q:** ".data bd.qtext '*' rfl rfl hqt
  have s4 : pyStrip ("A. ".data ++ bd.optA) = "A. ".data ++ bd.optA :=
    pyStrip_preField "A. ".data bd.optA 'A' rfl rfl hA
  have s5 : pyStrip ("B. ".data ++ bd.optB) = "B. ".data ++ bd.optB :=
    pyStrip_preField "B. ".data bd.optB 'B' rfl rfl hB
  have s6 : pyStrip ("C. ".data ++ bd.optC) = "C. ".data ++ bd.optC :=
    pyStrip_preField "C. ".data bd.optC 'C' rfl rfl hC
  have s7 : pyStrip ("D. ".data ++ bd.optD) = "D. ".data ++ bd.optD :=
    pyStrip_preField "D. ".data bd.optD 'D' rfl rfl hD
  have s9 : pyStrip ("**Correct Answer:** ".data ++ (bd.ansLetter :: '.' :: ' ' :: bd.ansText)) =
      "**Correct Answer:** ".data ++ (bd.ansLetter :: '.' :: ' ' :: bd.ansText) :=
    pyStrip_preField ("**Correct Answer:** ".data ++ [bd.ansLetter, '.', ' ']) bd.ansText
      '*' rfl rfl hAns
  have s11 : pyStrip ("**Explanation:** ".data ++ bd.expl) =
      "**Explanation:** ".data ++ bd.expl :=
    pyStrip_preField "**Explanation:** ".data bd.expl '*' rfl rfl hExp
  have hdwA : (' ' :: bd.optA).dropWhile isPySpace = bd.optA := by
    rw [List.dropWhile_cons, if_pos (by rfl : isPySpace ' ' = true)]
    exact dropWhile_eq_self_of_head isPySpace bd.optA (cleanField_head _ hA)
  have hdwB : (' ' :: bd.optB).dropWhile isPySpace = bd.optB := by
    rw [List.dropWhile_cons, if_pos (by rfl : isPySpace ' ' = true)]
    exact dropWhile_eq_self_of_head isPySpace bd.optB (cleanField_head _ hB)
  have hdwC : (' ' :: bd.optC).dropWhile isPySpace = bd.optC := by
    rw [List.dropWhile_cons, if_pos (by rfl : isPySpace ' ' = true)]
    exact dropWhile_eq_self_of_head isPySpace bd.optC (cleanField_head _ hC)
  have hdwD : (' ' :: bd.optD).dropWhile isPySpace = bd.optD := by
    rw [List.dropWhile_cons, if_pos (by rfl : isPySpace ' ' = true)]
    exact dropWhile_eq_self_of_head isPySpace bd.optD (cleanField_head _ hD)
  have m1 : optionMatch ("**QUESTION ".data ++ bd.numStr ++ "**".data) = none := by
    unfold optionMatch
    rw [s1]
    rfl
  have m2 : optionMatch ([] : Str) = none := rfl
  have m3 : optionMatch ("**Q:** ".data ++ bd.qtext) = none := by
    unfold optionMatch
    rw [s3]
    rfl
  have m4 : optionMatch ("A. ".data ++ bd.optA) = some ('A' :: '.' :: ' ' :: bd.optA) := by
    unfold optionMatch
    rw [s4]
    rw [show "A. ".data ++ bd.optA = 'A' :: '.' :: ' ' :: bd.optA from rfl]
    simp only []
    rw [if_pos (by rfl), hdwA]
  have m5 : optionMatch ("B. ".data ++ bd.optB) = some ('B' :: '.' :: ' ' :: bd.optB) := by
    unfold optionMatch
    rw [s5]
    rw [show "B. ".data ++ bd.optB = 'B' :: '.' :: ' ' :: bd.optB from rfl]
    simp only []
    rw [if_pos (by rfl), hdwB]
  have m6 : optionMatch ("C. ".data ++ bd.optC) = some ('C' :: '.' :: ' ' :: bd.optC) := by
    unfold optionMatch
    rw [s6]
    rw [show "C. ".data ++ bd.optC = 'C' :: '.' :: ' ' :: bd.optC from rfl]
    simp only []
    rw [if_pos (by rfl), hdwC]
  have m7 : optionMatch ("D. ".data ++ bd.optD) = some ('D' :: '.' :: ' ' :: bd.optD) := by
    unfold optionMatch
    rw [s7]
    rw [show "D. ".data ++ bd.optD = 'D' :: '.' :: ' ' :: bd.optD from rfl]
    simp only []
    rw [if_pos (by rfl), hdwD]
  have m9 : optionMatch ("**Correct Answer:** ".data ++
      (bd.ansLetter :: '.' :: ' ' :: bd.ansText)) = none := by
    unfold optionMatch
    rw [s9]
    have hLs : isPySpace bd.ansLetter = false := by
      rcases hL with hE | hE | hE | hE <;> rw [hE] <;> rfl
    rfl
  have m11 : optionMatch ("**Explanation:** ".data ++ bd.expl) = none := by
    unfold optionMatch
    rw [s11]
    rfl
  unfold extractOptions
  rw [hlines]
  simp only [blockLines, List.filterMap_cons, m1, m2, m3, m4, m5, m6, m7, m9, m11,
    List.filterMap_nil]

theorem parseQuestionBlock_render (hdr : HeaderInfo) (bd : BlockData) (hb : CleanBlock bd) :
    ∃ q, parseQuestionBlock hdr (renderBlock bd) = some q ∧
      q.options.length = 4 ∧ q.question_text = bd.qtext := by
  have hm : searchMarker (renderBlock bd) = some (digitsVal bd.numStr) :=
    searchMarker_render bd hb.1.1 hb.1.2
  have hqt := extractQText_render bd hb
  have hopts := extractOptions_render bd hb
  have hAns := searchAnswer_isSome bd hb
  have hExp := searchExpl_isSome bd hb
  obtain ⟨a, ha⟩ := Option.isSome_iff_exists.mp hAns
  obtain ⟨e, he⟩ := Option.isSome_iff_exists.mp hExp
  have hae : extractAnswerAndExplanation (renderBlock bd) = some (a, pyStrip e) := by
    unfold extractAnswerAndExplanation
    rw [ha, he]
  have hqne : bd.qtext.isEmpty = false := by
    cases hq0 : bd.qtext with
    | nil => exact absurd hq0 hb.2.1.1
    | cons c cs => rfl
  refine ⟨⟨hdr.subject, hdr.topic, hdr.subtopic, digitsVal bd.numStr, bd.qtext,
    ['A' :: '.' :: ' ' :: bd.optA, 'B' :: '.' :: ' ' :: bd.optB,
      'C' :: '.' :: ' ' :: bd.optC, 'D' :: '.' :: ' ' :: bd.optD], a, pyStrip e⟩,
    ?_, rfl, rfl⟩
  unfold parseQuestionBlock
  rw [hm]
  simp only [hqt, hqne, Bool.false_eq_true, if_false, hopts]
  rw [if_neg (by simp)]
  rw [hae]

theorem renderBlock_no_eq (bd : BlockData) (hb : CleanBlock bd) :
    ∀ x ∈ renderBlock bd, x ≠ '=' := by
  obtain ⟨⟨hn0, hnd⟩, hqt, hA, hB, hC, hD, hL, hAns, hExp⟩ := hb
  intro x hx
  rcases joinWith_mem '\n' (blockLines bd) x hx with rfl | ⟨l, hl, hxl⟩
  · decide
  · have hfield : ∀ s : Str, cleanField s → ∀ y ∈ s, y ≠ '=' :=
      fun s hs y hy => (hs.2.2.2 y hy).2.2
    simp only [blockLines, List.mem_cons, List.not_mem_nil, or_false] at hl
    rcases hl with rfl | rfl | rfl | rfl | rfl | rfl | rfl | rfl | rfl | rfl | rfl
    · rcases List.mem_append.mp hxl with h | h
      · rcases List.mem_append.mp h with h' | h'
        · exact (by decide : ∀ y ∈ "**QUESTION ".data, y ≠ '=') x h'
        · intro hx'
          subst hx'
          exact absurd (hnd _ h') (by decide)
      · exact (by decide : ∀ y ∈ "**".data, y ≠ '=') x h
    · simp at hxl
    · rcases List.mem_append.mp hxl with h | h
      · exact (by decide : ∀ y ∈ "**Q:** ".data, y ≠ '=') x h
      · exact hfield _ hqt x h
    · rcases List.mem_append.mp hxl with h | h
      · exact (by decide : ∀ y ∈ "A. ".data, y ≠ '=') x h
      · exact hfield _ hA x h
    · rcases List.mem_append.mp hxl with h | h
      · exact (by decide : ∀ y ∈ "B. ".data, y ≠ '=') x h
      · exact hfield _ hB x h
    · rcases List.mem_append.mp hxl with h | h
      · exact (by decide : ∀ y ∈ "C. ".data, y ≠ '=') x h
      · exact hfield _ hC x h
    · rcases List.mem_append.mp hxl with h | h
      · exact (by decide : ∀ y ∈ "D. ".data, y ≠ '=') x h
      · exact hfield _ hD x h
    · simp at hxl
    · rcases List.mem_append.mp hxl with h | h
      · exact (by decide : ∀ y ∈ "**Correct Answer:** ".data, y ≠ '=') x h
      · rcases List.mem_cons.mp h with rfl | h'
        · rcases hL with hE | hE | hE | hE <;> rw [hE] <;> decide
        · rcases List.mem_cons.mp h' with rfl | h''
          · decide
          · rcases List.mem_cons.mp h'' with rfl | h'''
            · decide
            · exact hfield _ hAns x h'''
    · simp at hxl
    · rcases List.mem_append.mp hxl with h | h
      · exact (by decide : ∀ y ∈ "**Explanation:** ".data, y ≠ '=') x h
      · exact hfield _ hExp x h

theorem renderBlock_head (bd : BlockData) : (renderBlock bd).head? = some '*' := by
  rw [renderBlock_eq_marker bd]
  rfl

theorem renderBlock_getLast (bd : BlockData) (hb : CleanBlock bd) :
    ∃ y, (renderBlock bd).getLast? = some y ∧ isPySpace y = false := by
  obtain ⟨y, hy, hys⟩ := cleanField_getLast_exists bd.expl hb.2.2.2.2.2.2.2.2
  refine ⟨y, ?_, hys⟩
  rw [renderBlock_eq_expl bd]
  exact getLastAppend _ _ y (getLastAppend _ _ y (getLastAppend [' '] bd.expl y hy))

theorem renderBlock_ne_nil (bd : BlockData) : renderBlock bd ≠ [] := by
  intro h
  have := renderBlock_head bd
  rw [h] at this
  simp at this

theorem pyStrip_piece (bd : BlockData) (hb : CleanBlock bd) :
    pyStrip ('\n' :: (renderBlock bd ++ ['\n'])) = renderBlock bd := by
  obtain ⟨y, hy, hys⟩ := renderBlock_getLast bd hb
  exact pyStrip_pad '\n' '\n' rfl rfl (renderBlock bd) (renderBlock_ne_nil bd)
    (headNotSpace_of_eq _ '*' (renderBlock_head bd) rfl)
    (lastNotSpace_of_eq _ y hy hys)

theorem pySplit_doc_aux (bds : List BlockData) (hbds : ∀ bd ∈ bds, CleanBlock bd) :
    ∀ (a : Str), (∀ c ∈ a, c ≠ '=') →
    pySplit questionSeparator
      (a ++ (bds.map (fun b => questionSeparator ++ ('\n' :: (renderBlock b ++ ['\n'])))).flatten) =
      a :: bds.map (fun b => '\n' :: (renderBlock b ++ ['\n'])) := by
  induction bds with
  | nil =>
    intro a ha
    rw [List.map_nil, List.flatten_nil, List.append_nil]
    exact pySplit_nosep '=' (List.replicate 59 '=') a ha
  | cons b rest ih =>
    intro a ha
    have hb := hbds b (List.mem_cons_self b rest)
    have ih' := ih (fun x hx => hbds x (List.mem_cons_of_mem b hx))
    have hre : a ++ ((b :: rest).map
        (fun b => questionSeparator ++ ('\n' :: (renderBlock b ++ ['\n'])))).flatten =
        a ++ ('=' :: List.replicate 59 '=') ++
          (('\n' :: (renderBlock b ++ ['\n'])) ++
            (rest.map (fun b => questionSeparator ++ ('\n' :: (renderBlock b ++ ['\n'])))).flatten) := by
      simp only [List.map_cons, List.flatten_cons]
      show a ++ (questionSeparator ++ _ ++ _) = _
      simp [List.append_assoc]
      rfl
    rw [hre]
    rw [show questionSeparator = '=' :: List.replicate 59 '=' from rfl]
    rw [pySplit_append '=' (List.replicate 59 '=') a _ ha]
    have hpieceeq : ∀ c ∈ ('\n' :: (renderBlock b ++ ['\n'])), c ≠ '=' := by
      intro c hc
      rcases List.mem_cons.mp hc with rfl | h
      · decide
      · rcases List.mem_append.mp h with h' | h'
        · exact renderBlock_no_eq b hb c h'
        · simp only [List.mem_singleton] at h'
          subst h'
          decide
    have hrest := ih' ('\n' :: (renderBlock b ++ ['\n'])) hpieceeq
    rw [show questionSeparator = '=' :: List.replicate 59 '=' from rfl] at hrest
    rw [hrest]
    simp

theorem splitBlocks_renderDoc (hd : Str) (bds : List BlockData)
    (hhd : ∀ c ∈ hd, c ≠ '=' ∧ c ≠ '*') (hbds : ∀ bd ∈ bds, CleanBlock bd) :
    splitIntoQuestionBlocks (renderDoc hd bds) = bds.map renderBlock := by
  unfold splitIntoQuestionBlocks renderDoc
  rw [pySplit_doc_aux bds hbds hd (fun c hc => (hhd c hc).1)]
  simp only [List.map_cons, List.filter_cons]
  have hhdrop : (!(pyStrip hd).isEmpty &&
      containsSeq "**QUESTION".data (pyStrip hd)) = false := by
    have hc : containsSeq "**QUESTION".data (pyStrip hd) = false :=
      containsSeq_eq_false_of_ne '*' _ (pyStrip hd)
        (fun c hc => (hhd c (mem_pyStrip hd c hc)).2)
    rw [hc, Bool.and_false]
  rw [hhdrop]
  simp only [Bool.false_eq_true, if_false]
  have main : ∀ (l : List BlockData), (∀ bd ∈ l, CleanBlock bd) →
      ((l.map (fun b => '\n' :: (renderBlock b ++ ['\n']))).map pyStrip).filter
        (fun b => !b.isEmpty && containsSeq "**QUESTION".data b) = l.map renderBlock := by
    intro l
    induction l with
    | nil => intro _; rfl
    | cons b rest ih =>
      intro hall
      have hb := hall b (List.mem_cons_self b rest)
      have ih' := ih fun x hx => hall x (List.mem_cons_of_mem b hx)
      simp only [List.map_cons, List.filter_cons, pyStrip_piece b hb]
      have hkeep : (!(renderBlock b).isEmpty &&
          containsSeq "**QUESTION".data (renderBlock b)) = true := by
        have h1 : (renderBlock b).isEmpty = false := by
          cases hr : renderBlock b with
          | nil => exact absurd hr (renderBlock_ne_nil b)
          | cons c cs => rfl
        have h2 : containsSeq "**QUESTION".data (renderBlock b) = true := by
          apply containsSeq_of_startsWith
          rw [renderBlock_eq_marker b]
          exact pyStartsWith_self_append _ _
        rw [h1, h2]
        rfl
      rw [hkeep]
      simp only [if_true, ih']
  exact main bds hbds

theorem filterMapRender (hdr : HeaderInfo) : ∀ (bds : List BlockData),
    (∀ bd ∈ bds, CleanBlock bd) →
    ((bds.map renderBlock).filterMap (parseQuestionBlock hdr)).length = bds.length ∧
    ∀ q ∈ (bds.map renderBlock).filterMap (parseQuestionBlock hdr),
      q.options.length = 4 ∧ q.question_text ≠ [] := by
  intro bds
  induction bds with
  | nil =>
    intro _
    constructor
    · rfl
    · intro q hq
      simp at hq
  | cons b rest ih =>
    intro hall
    have hb := hall b (List.mem_cons_self b rest)
    obtain ⟨q, hq, hlen, hqt⟩ := parseQuestionBlock_render hdr b hb
    have ih' := ih fun x hx => hall x (List.mem_cons_of_mem b hx)
    constructor
    · simp only [List.map_cons, List.filterMap_cons, hq, List.length_cons]
      rw [ih'.1]
    · intro q' hq'
      simp only [List.map_cons, List.filterMap_cons, hq] at hq'
      rcases List.mem_cons.mp hq' with rfl | h'
      · refine ⟨hlen, ?_⟩
        rw [hqt]
        exact hb.2.1.1
      · exact ih'.2 q' h'

set_option maxHeartbeats 1000000

/-- Claim C1: for every well-formed input document — modelled as a header
part followed by question blocks rendered in the §6 input format from clean
block data, delimited by the 60-`=` separator — `parse_content` returns
exactly one `Question` record per question block (and the number of
question blocks of the document equals the number of rendered blocks), and
every returned record has exactly 4 options and non-empty question text. -/
theorem c1_wellformed_parse (hd : Str) (bds : List BlockData)
    (hhd : ∀ c ∈ hd, c ≠ '=' ∧ c ≠ '*') (hbds : ∀ bd ∈ bds, CleanBlock bd) :
    (splitIntoQuestionBlocks (renderDoc hd bds)).length = bds.length ∧
    (parseContent (renderDoc hd bds)).length = bds.length ∧
    ∀ q ∈ parseContent (renderDoc hd bds),
      q.options.length = 4 ∧ q.question_text ≠ [] := by
  have hsplit := splitBlocks_renderDoc hd bds hhd hbds
  have hmain := filterMapRender (extractHeaderInfo (renderDoc hd bds)) bds hbds
  refine ⟨?_, ?_, ?_⟩
  · rw [hsplit, List.length_map]
  · show ((splitIntoQuestionBlocks (renderDoc hd bds)).filterMap
      (parseQuestionBlock (extractHeaderInfo (renderDoc hd bds)))).length = bds.length
    rw [hsplit]
    exact hmain.1
  · intro q hq
    have hq' : q ∈ (bds.map renderBlock).filterMap
        (parseQuestionBlock (extractHeaderInfo (renderDoc hd bds))) := by
      rw [← hsplit]
      exact hq
    exact hmain.2 q hq'

/-- A concrete clean block for the C1 witness. -/
def exBD1 : BlockData :=
  { numStr := "1".data
    qtext := "What is the capital of India?".data
    optA := "Mumbai".data
    optB := "New Delhi".data
    optC := "Kolkata".data
    optD := "Chennai".data
    ansLetter := 'B'
    ansText := "New Delhi".data
    expl := "New Delhi is the capital.".data }

theorem c1_wellformed_parse_witness :
    (splitIntoQuestionBlocks (renderDoc "Subject: History\n".data [exBD1])).length = 1 ∧
    (parseContent (renderDoc "Subject: History\n".data [exBD1])).length = 1 ∧
    ∀ q ∈ parseContent (renderDoc "Subject: History\n".data [exBD1]),
      q.options.length = 4 ∧ q.question_text ≠ [] :=
  c1_wellformed_parse "Subject: History\n".data [exBD1]
    (by decide) (by decide)
